import Mathlib

/-! USB-CLCD1602 drivers: a shallow embedding.

Two drivers for the CLCD1602 module are embedded here:

* `USBH_CLCD`  (USBH_CLCD.h / USBH_CLCD.cpp): the USB-HID host driver,
* `TWCLCD1602` (TWCLCD1602.h): the I2C driver.

Conventions.  A `uint8_t` is a natural number below 256, `int8_t` is an
integer in `[-128, 127]`; every narrowing store in the source is an explicit
`% 256` or `toInt8` here.  A `const uint8_t*` is the memory seen from the
pointer: a function from offsets to bytes, so that `p[i]` is `p i` and
`p += n` is `fun i => p (i + n)`.  Calls into the USB host stack, the Wire
bus, `delay` and `Serial` are recorded, in program order, in a call log.
-/

/-- Conversion to `int8_t`: two's complement wrap into `[-128, 127]`. -/
def toInt8 (x : Int) : Int := (x + 128) % 256 - 128

/-! ## The HID driver -/

/-- Fields of `class USBH_CLCD` (USBH_CLCD.h, lines 116-126). -/
structure USBH_CLCD where
  _dev_addr : Nat
  _instance : Nat
  _is_sending : Bool
  _last_poll_ms : Nat
  _is_pressed : Bool
  _rotation_accumulator : Int
  deriving DecidableEq

namespace USBH_CLCD

def USB_CLCD_VID : Nat := 0xf055
def USB_CLCD_PID : Nat := 0x6584

def CMD_LCD_DATA_TRANSFER : Nat := 0x01
def CMD_LCD_COMMAND_TRANSFER : Nat := 0x02
def CMD_BACKLIGHT_CONTROL : Nat := 0x03

def LCD_CMD_CLEAR_DISPLAY : Nat := 0x01
def LCD_CMD_SET_DDRAM_ADDR : Nat := 0x80

/-- The constructor `USBH_CLCD(Adafruit_USBH_Host&)` (USBH_CLCD.h, lines 26-33). -/
def new : USBH_CLCD :=
  { _dev_addr := 0
    _instance := 0
    _is_sending := false
    _last_poll_ms := 0
    _is_pressed := false
    _rotation_accumulator := 0 }

/-- Result of a method: the driver afterwards and the returned value. -/
structure Ret (α : Type) where
  drv : USBH_CLCD
  val : α

/-- Method `bool isPressed(void)`. -/
def isPressed (s : USBH_CLCD) : Ret Bool :=
  { drv := s, val := s._is_pressed }

/-- Method `int8_t readRotation(void)`. -/
def readRotation (s : USBH_CLCD) : Ret Int :=
  let rotation := s._rotation_accumulator
  { drv := { s with _rotation_accumulator := 0 }, val := rotation }

/-- Method `bool mount_cb(uint8_t dev_addr)`.  The host-stack lookup
`tuh_vid_pid_get(dev_addr, &vid, &pid)` is a parameter: it yields the success
flag and the two 16-bit identifiers it stored. -/
def mount_cb (tuh_vid_pid_get : Nat → Bool × Nat × Nat) (s : USBH_CLCD) (dev_addr : Nat) :
    Ret Bool :=
  let r := tuh_vid_pid_get dev_addr
  if r.1 && r.2.1 == USB_CLCD_VID && r.2.2 == USB_CLCD_PID then
    { drv := { s with _dev_addr := dev_addr, _instance := 0 }, val := true }
  else
    { drv := s, val := false }

/-- Method `void umount_cb(uint8_t dev_addr)`. -/
def umount_cb (s : USBH_CLCD) (dev_addr : Nat) : USBH_CLCD :=
  if dev_addr == s._dev_addr then
    { s with _dev_addr := 0, _instance := 0, _is_pressed := false, _rotation_accumulator := 0 }
  else
    s

/-- Method `void report_received_cb(uint8_t dev_addr, uint8_t instance, uint8_t const* report,
uint16_t len)`. -/
def report_received_cb (s : USBH_CLCD) (dev_addr instance_ : Nat) (report : Nat → Nat)
    (len : Nat) : USBH_CLCD :=
  if dev_addr == s._dev_addr && instance_ == s._instance && decide (len ≥ 2) then
    { s with
      _is_pressed := (report 0 == 0x01)
      _rotation_accumulator := toInt8 (s._rotation_accumulator + toInt8 (report 1)) }
  else
    s

/-- Method `void report_sent_cb(uint8_t dev_addr, uint8_t idx, uint8_t const* report, uint16_t len)`. -/
def report_sent_cb (s : USBH_CLCD) (dev_addr idx : Nat) (_report : Nat → Nat) (_len : Nat) :
    USBH_CLCD :=
  if dev_addr == s._dev_addr && s._instance == idx then
    { s with _is_sending := false }
  else
    s

/-! ### The host stack seen from the driver

`_usb_host.task()` runs the TinyUSB host stack, which calls back into the
driver.  One `task()` call is the list of callbacks it fired. -/

/-- A callback fired by the host stack.  `mount` carries what `tuh_vid_pid_get`
answers for the device being mounted. -/
inductive HostEvent where
  | mount (dev_addr : Nat) (ids : Bool × Nat × Nat)
  | umount (dev_addr : Nat)
  | report_received (dev_addr instance_ : Nat) (report : Nat → Nat) (len : Nat)
  | report_sent (dev_addr idx : Nat) (report : Nat → Nat) (len : Nat)

/-- The sketch-level TinyUSB callback forwarding one event to the driver. -/
def dispatch (s : USBH_CLCD) : HostEvent → USBH_CLCD
  | .mount dev_addr ids => (mount_cb (fun _ => ids) s dev_addr).drv
  | .umount dev_addr => umount_cb s dev_addr
  | .report_received dev_addr instance_ report len =>
      report_received_cb s dev_addr instance_ report len
  | .report_sent dev_addr idx report len => report_sent_cb s dev_addr idx report len

/-- One `_usb_host.task(); yield();` step. -/
def task (s : USBH_CLCD) (events : List HostEvent) : USBH_CLCD :=
  events.foldl dispatch s

/-- A call the driver makes into the host stack or the Arduino core. -/
inductive HostCall where
  | tuh_hid_receive_report (dev_addr instance_ : Nat)
  | tuh_hid_send_report (dev_addr instance_ report_id : Nat) (report : List Nat)
  | delay (ms : Nat)
  | serial_println (msg : String)
  deriving DecidableEq

/-- Whether a call moves a report over USB (an output report or an input-report request). -/
def HostCall.isTransfer : HostCall → Bool
  | .tuh_hid_receive_report _ _ => true
  | .tuh_hid_send_report _ _ _ _ => true
  | .delay _ => false
  | .serial_println _ => false

/-- Result of a method that talks to the host: driver afterwards, calls made, returned value. -/
structure Out (α : Type) where
  drv : USBH_CLCD
  calls : List HostCall
  val : α

/-- What one busy-wait of `available()` observes: the `task()` steps run while
`tuh_ready` was false, and whether `tuh_ready` became true before the 100 ms
deadline. -/
structure AvailableObs where
  rounds : List (List HostEvent)
  ready : Bool

/-- What one `send_packet` observes: its `available()` wait, then the `task()`
steps the host could run before the 100 ms send deadline. -/
structure SendObs where
  avail : AvailableObs
  wait : List (List HostEvent)

/-- What `update()` observes: its `available()` wait and the two `millis()` readings. -/
structure UpdateObs where
  avail : AvailableObs
  millis1 : Nat
  millis2 : Nat

/-- Method `bool available(void)`. -/
def available (s : USBH_CLCD) (o : AvailableObs) : Ret Bool :=
  if s._dev_addr == 0 then
    { drv := s, val := false }
  else
    { drv := o.rounds.foldl task s, val := o.ready }

/-- The wait loop of `send_packet`:
`for (start = millis(); millis() - start < 100 && _is_sending;) { task(); yield(); }`.
The list holds the steps that fit before the deadline. -/
def send_wait (s : USBH_CLCD) : List (List HostEvent) → USBH_CLCD
  | [] => s
  | events :: rest => if s._is_sending then send_wait (task s events) rest else s

/-- Pointer to a local array. -/
def arr (l : List Nat) : Nat → Nat := fun i => l.getD i 0

/-- Method `void send_packet(const uint8_t* packet, uint16_t len)`. -/
def send_packet (s : USBH_CLCD) (packet : Nat → Nat) (len : Nat) (o : SendObs) : Out Unit :=
  let a := available s o.avail
  if !a.val then
    { drv := a.drv, calls := [], val := () }
  else
    let s1 := { a.drv with _is_sending := true }
    let call :=
      if len < 64 then
        let report := (List.range 64).map (fun i => if i < len then packet i else 0)
        HostCall.tuh_hid_send_report s1._dev_addr s1._instance 0 report
      else
        HostCall.tuh_hid_send_report s1._dev_addr s1._instance 0 ((List.range len).map packet)
    { drv := send_wait s1 o.wait, calls := [call], val := () }

/-- Method `void send_command(uint8_t command, uint8_t data)`. -/
def send_command (s : USBH_CLCD) (command data : Nat) (o : SendObs) : Out Unit :=
  let report := [command, data]
  send_packet s (arr report) 2 o

/-- Method `void clear(void)`. -/
def clear (s : USBH_CLCD) (o : SendObs) : Out Unit :=
  let r := send_command s CMD_LCD_COMMAND_TRANSFER LCD_CMD_CLEAR_DISPLAY o
  { drv := r.drv, calls := r.calls ++ [HostCall.delay 5], val := () }

/-- Method `void setCursor(uint8_t row, uint8_t col)`. -/
def setCursor (s : USBH_CLCD) (row col : Nat) (o : SendObs) : Out Unit :=
  let row := row % 2
  let col := col % 16
  let address := (0x40 * row + col) % 256
  send_command s CMD_LCD_COMMAND_TRANSFER ((LCD_CMD_SET_DDRAM_ADDR ||| address) % 256) o

/-- Method `void backlight(bool on)`. -/
def backlight (s : USBH_CLCD) (on_ : Bool) (o : SendObs) : Out Unit :=
  send_command s CMD_BACKLIGHT_CONTROL (if on_ then 0x01 else 0x00) o

/-- Method `size_t write(uint8_t c)`. -/
def write (s : USBH_CLCD) (c : Nat) (oa : AvailableObs) (o : SendObs) : Out Nat :=
  let a := available s oa
  if !a.val then
    { drv := a.drv, calls := [HostCall.serial_println "not available() in write()"], val := 0 }
  else
    let report := [CMD_LCD_DATA_TRANSFER, c]
    let r := send_packet a.drv (arr report) 2 o
    { drv := r.drv, calls := r.calls, val := 1 }

/-- The body of the inner `for` loop of `write(buffer, len)` run on a zeroed
`uint8_t buf[64]`: `buf[i*2+0] = CMD_LCD_DATA_TRANSFER; buf[i*2+1] = buffer[i];`
for `i = 0 .. copy_len-1`. -/
def write_pack (buffer : Nat → Nat) (copy_len : Nat) : List Nat :=
  (List.range copy_len).foldl
    (fun buf i => (buf.set (i * 2 + 0) CMD_LCD_DATA_TRANSFER).set (i * 2 + 1) (buffer i))
    (List.replicate 64 0)

/-- The `while (sent_len < len)` loop of `write(buffer, len)`.  `k` counts the
iterations done so far (it selects the observation of this iteration's
`send_packet`); `buffer` is the advanced pointer. -/
def write_loop (o : Nat → SendObs) (len : Nat) (k : Nat) (buffer : Nat → Nat)
    (s : USBH_CLCD) (calls : List HostCall) (sent_len : Nat) : Out Nat :=
  if _h : sent_len < len then
    let copy_len := if len < 32 then len else 32
    let buf := write_pack buffer copy_len
    let r := send_packet s (arr buf) 64 (o k)
    write_loop o len (k + 1) (fun i => buffer (i + copy_len)) r.drv (calls ++ r.calls)
      (sent_len + copy_len)
  else
    { drv := s, calls := calls, val := sent_len }
termination_by len - sent_len
decreasing_by
  simp_wf
  split <;> omega

/-- Method `size_t write(const uint8_t* buffer, size_t len)`. -/
def write_buffer (s : USBH_CLCD) (buffer : Nat → Nat) (len : Nat) (o : Nat → SendObs) :
    Out Nat :=
  write_loop o len 0 buffer s [] 0

/-- Method `void update(void)`; `millis() - _last_poll_ms` is 32-bit unsigned arithmetic. -/
def update (s : USBH_CLCD) (o : UpdateObs) : Out Unit :=
  let a := available s o.avail
  if a.val && decide ((o.millis1 + 2 ^ 32 - a.drv._last_poll_ms) % 2 ^ 32 ≥ 20) then
    let s1 := { a.drv with _last_poll_ms := o.millis2 }
    { drv := s1, calls := [HostCall.tuh_hid_receive_report s1._dev_addr s1._instance], val := () }
  else
    { drv := a.drv, calls := [], val := () }

/-- The control flow of the `while` loop of `write(buffer, len)` with its
memory accesses made visible.  `base` is how far `buffer += copy_len` has
advanced the pointer, so the iteration that evaluates `buffer[i]` for
`i < copy_len` reads the offsets `base + i` of the caller's pointer.  The
result is the list of offsets read, in order, and the number of iterations. -/
def write_reads (len : Nat) (base : Nat) (iterations : Nat) (reads : List Nat)
    (sent_len : Nat) : List Nat × Nat :=
  if _h : sent_len < len then
    let copy_len := if len < 32 then len else 32
    write_reads len (base + copy_len) (iterations + 1)
      (reads ++ (List.range copy_len).map (fun i => base + i)) (sent_len + copy_len)
  else
    (reads, iterations)
termination_by len - sent_len
decreasing_by
  simp_wf
  split <;> omega

/-- A call on the driver that does not talk to the host: one of the four
callbacks, or one of the two input queries. -/
inductive ApiCall where
  | callback (e : HostEvent)
  | readRotation
  | isPressed

/-- The device address a call carries; the input queries carry none. -/
def ApiCall.dev_addr : ApiCall → Option Nat
  | .callback (.mount dev_addr _) => some dev_addr
  | .callback (.umount dev_addr) => some dev_addr
  | .callback (.report_received dev_addr _ _ _) => some dev_addr
  | .callback (.report_sent dev_addr _ _ _) => some dev_addr
  | .readRotation => none
  | .isPressed => none

/-- The driver after one call. -/
def step (s : USBH_CLCD) : ApiCall → USBH_CLCD
  | .callback e => dispatch s e
  | .readRotation => (readRotation s).drv
  | .isPressed => (isPressed s).drv

/-- The driver after a sequence of calls. -/
def run (s : USBH_CLCD) (calls : List ApiCall) : USBH_CLCD :=
  calls.foldl step s

end USBH_CLCD

/-! ## The I2C driver -/

/-- Fields of `class TWCLCD1602` (TWCLCD1602.h): the cached input state and the
private transaction buffer with its fill level. -/
structure TWCLCD1602 where
  _pressed : Bool
  _nob : Int
  buffer : List Nat
  datalen : Nat
  deriving DecidableEq

namespace TWCLCD1602

def I2C_CLCD_ADDRESS : Nat := 0x2f
def MAX_DATA_LENGTH : Nat := 30

/-- A call the driver makes on the `TwoWire` object or the Arduino core.
`endTransmission true` is the argument-less `_wire.endTransmission()`, which
releases the bus.  `Wire_read` and `Wire_endTransmission` are the two calls
that `update()` makes on the global `Wire` object instead of on `_wire`. -/
inductive WireCall where
  | beginTransmission (address : Nat)
  | write (data : Nat)
  | endTransmission (sendStop : Bool)
  | requestFrom (address quantity : Nat)
  | available
  | Wire_read
  | Wire_endTransmission
  | delay (ms : Nat)
  deriving DecidableEq

/-- Result of a method: driver afterwards, calls made on the bus, returned value. -/
structure Out (α : Type) where
  drv : TWCLCD1602
  calls : List WireCall
  val : α

/-- The bus transactions of a call log: for every `beginTransmission ..
endTransmission` bracket, the bytes written inside it, in order. -/
def transactionsFrom : Option (List Nat) → List WireCall → List (List Nat)
  | _, [] => []
  | _, .beginTransmission _ :: rest => transactionsFrom (some []) rest
  | some cur, .write d :: rest => transactionsFrom (some (cur ++ [d])) rest
  | some cur, .endTransmission _ :: rest => cur :: transactionsFrom none rest
  | cur, _ :: rest => transactionsFrom cur rest

/-- The bus transactions of a complete call log. -/
def transactions (calls : List WireCall) : List (List Nat) :=
  transactionsFrom none calls

/-- The private `void beginTransmission()`. -/
def beginTransmission (s : TWCLCD1602) : TWCLCD1602 :=
  { s with buffer := List.replicate MAX_DATA_LENGTH 0x00, datalen := 0 }

/-- The private `void wireWrite(uint8_t data)`. -/
def wireWrite (s : TWCLCD1602) (data : Nat) : TWCLCD1602 :=
  if s.datalen == MAX_DATA_LENGTH then
    s
  else
    { s with buffer := s.buffer.set s.datalen data, datalen := (s.datalen + 1) % 256 }

/-- The private `int endTransmission()`; `result` is what `_wire.endTransmission()` returns. -/
def endTransmission (s : TWCLCD1602) (result : Int) : Out Int :=
  { drv := s
    calls := [WireCall.beginTransmission I2C_CLCD_ADDRESS]
      ++ (List.range s.datalen).map (fun i => WireCall.write (s.buffer.getD i 0))
      ++ [WireCall.endTransmission true]
    val := result }

/-- Method `void setCursor(uint8_t row, uint8_t col)`. -/
def setCursor (s : TWCLCD1602) (row col : Nat) (result : Int) : Out Unit :=
  let row := row % 2
  let col := col % 16
  let s := beginTransmission s
  let s := wireWrite s 0x02
  let s := wireWrite s ((0x80 ||| ((0x40 * row) + col)) % 256)
  let r := endTransmission s result
  { drv := r.drv, calls := r.calls ++ [WireCall.delay 2], val := () }

/-- The inner `for` loop of `write(buffer, size)`:
`wireWrite(0x01); wireWrite(p[i]);` for `i = 0 .. txlen-1`. -/
def write_fill (p : Nat → Nat) (txlen : Nat) (s : TWCLCD1602) : TWCLCD1602 :=
  (List.range txlen).foldl (fun s i => wireWrite (wireWrite s 0x01) (p i)) s

/-- The `while (size > 0)` loop of `write(buffer, size)`.  `k` counts the
transactions done so far (it selects the bus result of this one). -/
def write_loop (results : Nat → Int) (k : Nat) (p : Nat → Nat) (s : TWCLCD1602)
    (calls : List WireCall) (size : Nat) : Out Unit :=
  if _h : size > 0 then
    let txlen := if size ≤ MAX_DATA_LENGTH / 2 then size else MAX_DATA_LENGTH / 2
    let s1 := beginTransmission s
    let s2 := write_fill p txlen s1
    let r := endTransmission s2 (results k)
    write_loop results (k + 1) (fun i => p (i + txlen)) r.drv (calls ++ r.calls) (size - txlen)
  else
    { drv := s, calls := calls, val := () }
termination_by size
decreasing_by
  simp_wf
  simp only [MAX_DATA_LENGTH]
  split <;> omega

/-- Method `size_t write(const uint8_t *buffer, size_t size)`. -/
def write_buffer (s : TWCLCD1602) (buffer : Nat → Nat) (size : Nat) (results : Nat → Int) :
    Out Nat :=
  let orig_size := size
  let r := write_loop results 0 buffer s [] size
  { drv := r.drv, calls := r.calls, val := orig_size }

/-- Method `int getDirection()`. -/
def getDirection (s : TWCLCD1602) : TWCLCD1602 × Int :=
  if s._nob > 0 then
    (s, 1)
  else if s._nob < 0 then
    (s, -1)
  else
    (s, 0)

/-- Method `void clear()`. -/
def clear (s : TWCLCD1602) (result : Int) : Out Unit :=
  let s := beginTransmission s
  let s := wireWrite s 0x02
  let s := wireWrite s 0x01
  let r := endTransmission s result
  { drv := r.drv, calls := r.calls ++ [WireCall.delay 4], val := () }

/-- Method `void home()`. -/
def home (s : TWCLCD1602) (result : Int) : Out Unit :=
  let s := beginTransmission s
  let s := wireWrite s 0x02
  let s := wireWrite s 0x02
  let r := endTransmission s result
  { drv := r.drv, calls := r.calls ++ [WireCall.delay 4], val := () }

/-- Method `void noDisplay()`. -/
def noDisplay (s : TWCLCD1602) (result : Int) : Out Unit :=
  let s := beginTransmission s
  let s := wireWrite s 0x02
  let s := wireWrite s (0x08 ||| 0x00)
  let r := endTransmission s result
  { drv := r.drv, calls := r.calls ++ [WireCall.delay 2], val := () }

/-- Method `void display()`. -/
def display (s : TWCLCD1602) (result : Int) : Out Unit :=
  let s := beginTransmission s
  let s := wireWrite s 0x02
  let s := wireWrite s (0x08 ||| 0x04)
  let r := endTransmission s result
  { drv := r.drv, calls := r.calls ++ [WireCall.delay 2], val := () }

/-- Method `void noBacklight()`. -/
def noBacklight (s : TWCLCD1602) (result : Int) : Out Unit :=
  let s := beginTransmission s
  let s := wireWrite s 0x03
  let s := wireWrite s 0x00
  let r := endTransmission s result
  { drv := r.drv, calls := r.calls ++ [WireCall.delay 2], val := () }

/-- Method `void backlight()`. -/
def backlight (s : TWCLCD1602) (result : Int) : Out Unit :=
  let s := beginTransmission s
  let s := wireWrite s 0x03
  let s := wireWrite s 0x01
  let r := endTransmission s result
  { drv := r.drv, calls := r.calls ++ [WireCall.delay 2], val := () }

/-- Method `size_t write(uint8_t ch)`. -/
def write (s : TWCLCD1602) (ch : Nat) (result : Int) : Out Nat :=
  let s := beginTransmission s
  let s := wireWrite s 0x01
  let s := wireWrite s ch
  let r := endTransmission s result
  { drv := r.drv, calls := r.calls, val := 1 }

/-- What one `update()` observes: the result of `_wire.endTransmission(false)`,
the indeterminate first contents of the local `uint8_t buf[8]`, whether
`_wire.available()` is non-zero at the check of loop index `i`, and the value
`Wire.read()` yields at loop index `i`. -/
structure PollObs where
  result : Int
  stack : Nat → Nat
  available : Nat → Bool
  read : Nat → Nat

/-- The read loop of `update()`:
`for (int i = 0; i < 8 && _wire.available(); i++) { buf[i] = Wire.read(); }`.
The first argument is `8 - i`; at `i = 8` the loop ends without asking
`_wire.available()`. -/
def update_fetch (o : PollObs) : Nat → Nat → List Nat → List WireCall → List Nat × List WireCall
  | 0, _, buf, calls => (buf, calls)
  | n + 1, i, buf, calls =>
    if o.available i then
      update_fetch o n (i + 1) (buf.set i (o.read i % 256))
        (calls ++ [WireCall.available, WireCall.Wire_read])
    else
      (buf, calls ++ [WireCall.available])

/-- Method `void update()`. -/
def update (s : TWCLCD1602) (o : PollObs) : Out Unit :=
  let buf := (List.range 8).map o.stack
  let calls := [WireCall.beginTransmission I2C_CLCD_ADDRESS, WireCall.write 0x04,
    WireCall.endTransmission false]
  let result := o.result
  if result != 0 then
    { drv := s, calls := calls, val := () }
  else
    let calls := calls ++ [WireCall.requestFrom I2C_CLCD_ADDRESS 8]
    let r := update_fetch o 8 0 buf calls
    let buf := r.1
    let calls := r.2 ++ [WireCall.Wire_endTransmission]
    { drv := { s with _pressed := (buf.getD 0 0 != 0), _nob := toInt8 (buf.getD 1 0) }
      calls := calls
      val := () }

/-- Method `bool isPressed()`. -/
def isPressed (s : TWCLCD1602) : TWCLCD1602 × Bool :=
  (s, s._pressed)

end TWCLCD1602

/-! ## Theorems: arrays -/

/-- Reading the first `n` cells of an array one by one gives its first `n` elements. -/
theorem map_getD_range (l : List Nat) :
    ∀ n, n ≤ l.length → (List.range n).map (fun i => l.getD i 0) = l.take n := by
  intro n
  induction n with
  | zero => simp
  | succ n ih =>
    intro h
    have hn : n < l.length := by omega
    rw [List.range_succ, List.map_append, ih (by omega), List.take_succ]
    simp [List.getD, List.getElem?_eq_getElem hn]

/-! ## Theorems: the HID driver's input state and session -/

namespace USBH_CLCD

/-- C5: `readRotation` returns the accumulator and leaves it at 0 with every
other field unchanged, so a second call right after it returns 0. -/
theorem readRotation_drains (s : USBH_CLCD) :
    (readRotation s).val = s._rotation_accumulator ∧
    (readRotation s).drv._rotation_accumulator = 0 ∧
    (readRotation s).drv._dev_addr = s._dev_addr ∧
    (readRotation s).drv._instance = s._instance ∧
    (readRotation s).drv._is_sending = s._is_sending ∧
    (readRotation s).drv._last_poll_ms = s._last_poll_ms ∧
    (readRotation s).drv._is_pressed = s._is_pressed ∧
    (readRotation (readRotation s).drv).val = 0 := by
  simp [readRotation]

/-- C8: `umount_cb` with the bound address clears address, instance, pressed
flag and accumulator; with any other address it changes nothing.  After a
mount accepted at address 5, `umount_cb(6)` changes nothing and the session
stays bound to address 5. -/
theorem umount_cb_resets_iff_match (s : USBH_CLCD) (dev_addr : Nat) :
    (dev_addr = s._dev_addr →
      (umount_cb s dev_addr)._dev_addr = 0 ∧ (umount_cb s dev_addr)._instance = 0 ∧
      (umount_cb s dev_addr)._is_pressed = false ∧
      (umount_cb s dev_addr)._rotation_accumulator = 0) ∧
    (dev_addr ≠ s._dev_addr → umount_cb s dev_addr = s) ∧
    (∀ lookup : Nat → Bool × Nat × Nat, lookup 5 = (true, 0xF055, 0x6584) →
      (mount_cb lookup s 5).val = true ∧
      umount_cb (mount_cb lookup s 5).drv 6 = (mount_cb lookup s 5).drv ∧
      (umount_cb (mount_cb lookup s 5).drv 6)._dev_addr = 5) := by
  refine ⟨?_, ?_, ?_⟩
  · intro h
    simp [umount_cb, h]
  · intro h
    simp [umount_cb, h]
  · intro lookup h
    simp [mount_cb, umount_cb, h, USB_CLCD_VID, USB_CLCD_PID]

/-- Witness for C8: a session bound to address 5 with pending input is reset by
`umount_cb(5)` and untouched by `umount_cb(6)`, also right after a mount. -/
theorem umount_cb_resets_iff_match_witness :
    (umount_cb ⟨5, 0, false, 0, true, 3⟩ 5)._dev_addr = 0 ∧
    umount_cb ⟨5, 0, false, 0, true, 3⟩ 6 = ⟨5, 0, false, 0, true, 3⟩ ∧
    (umount_cb (mount_cb (fun _ => (true, 0xF055, 0x6584)) new 5).drv 6)._dev_addr = 5 :=
  ⟨((umount_cb_resets_iff_match ⟨5, 0, false, 0, true, 3⟩ 5).1 rfl).1,
   (umount_cb_resets_iff_match ⟨5, 0, false, 0, true, 3⟩ 6).2.1 (by decide),
   ((umount_cb_resets_iff_match new 0).2.2 (fun _ => (true, 0xF055, 0x6584)) rfl).2.2⟩

/-- C9: `mount_cb` returns true exactly when the identifier lookup succeeds
with vendor ID 0xF055 and product ID 0x6584; then the session is bound to
`dev_addr` with instance 0 and the other fields are kept.  Otherwise it
returns false and the driver is unchanged, so an unbound session stays
unbound. -/
theorem mount_cb_accepts_iff (lookup : Nat → Bool × Nat × Nat) (s : USBH_CLCD)
    (dev_addr : Nat) :
    ((mount_cb lookup s dev_addr).val = true ↔
      ((lookup dev_addr).1 = true ∧ (lookup dev_addr).2.1 = 0xF055 ∧
        (lookup dev_addr).2.2 = 0x6584)) ∧
    ((mount_cb lookup s dev_addr).val = true →
      (mount_cb lookup s dev_addr).drv = { s with _dev_addr := dev_addr, _instance := 0 }) ∧
    ((mount_cb lookup s dev_addr).val = false →
      (mount_cb lookup s dev_addr).drv = s ∧
      (s._dev_addr = 0 → (mount_cb lookup s dev_addr).drv._dev_addr = 0)) := by
  by_cases h : ((lookup dev_addr).1 && (lookup dev_addr).2.1 == USB_CLCD_VID
      && (lookup dev_addr).2.2 == USB_CLCD_PID) = true
  · have h2 := h
    simp only [Bool.and_eq_true, beq_iff_eq, USB_CLCD_VID, USB_CLCD_PID] at h2
    simp only [mount_cb, h]
    simp [h2.1.1, h2.1.2, h2.2]
  · have h2 := h
    simp only [Bool.and_eq_true, beq_iff_eq, USB_CLCD_VID, USB_CLCD_PID] at h2
    simp only [mount_cb, h]
    simp only [Bool.false_eq_true, false_iff, false_implies, true_implies, true_and, imp_self,
      and_true, if_false]
    tauto

/-- Witness for C9: the matching device is bound at address 5; a device with
another product ID and a device whose lookup fails are rejected. -/
theorem mount_cb_accepts_iff_witness :
    (mount_cb (fun _ => (true, 0xF055, 0x6584)) new 5).drv = { new with _dev_addr := 5 } ∧
    (mount_cb (fun _ => (true, 0xF055, 0x6585)) new 5).drv = new ∧
    (mount_cb (fun _ => (false, 0xF055, 0x6584)) new 5).drv._dev_addr = 0 :=
  ⟨(mount_cb_accepts_iff (fun _ => (true, 0xF055, 0x6584)) new 5).2.1 rfl,
   ((mount_cb_accepts_iff (fun _ => (true, 0xF055, 0x6585)) new 5).2.2 rfl).1,
   ((mount_cb_accepts_iff (fun _ => (false, 0xF055, 0x6584)) new 5).2.2 rfl).2 rfl⟩

end USBH_CLCD

/-! ## Theorems: the I2C driver's direction query -/

namespace TWCLCD1602

/-- C10: `getDirection` returns the sign of the rotation field (1 if positive,
-1 if negative, 0 if zero) and does not modify the driver; the samples -5, 0
and 7 give -1, 0 and 1. -/
theorem getDirection_sign (s : TWCLCD1602) :
    (getDirection s).2 = Int.sign s._nob ∧
    (getDirection s).1 = s ∧
    (getDirection { s with _nob := -5 }).2 = -1 ∧
    (getDirection { s with _nob := 0 }).2 = 0 ∧
    (getDirection { s with _nob := 7 }).2 = 1 := by
  refine ⟨?_, ?_, by simp [getDirection], by simp [getDirection], by simp [getDirection]⟩
  · unfold getDirection
    split
    · next h => simp [Int.sign_eq_one_of_pos h]
    · split
      · next h => simp [Int.sign_eq_neg_one_of_neg h]
      · next h1 h2 =>
        have : s._nob = 0 := by omega
        simp [this]
  · unfold getDirection
    split
    · rfl
    · split <;> rfl

end TWCLCD1602

/-! ## Theorems: commands of the HID driver -/

namespace USBH_CLCD

/-- With no device bound `available()` answers false at once, without running the host. -/
theorem available_unbound (s : USBH_CLCD) (h : s._dev_addr = 0) (o : AvailableObs) :
    available s o = { drv := s, val := false } := by
  simp [available, h]

/-- With no device bound `send_packet` does nothing. -/
theorem send_packet_unbound (s : USBH_CLCD) (h : s._dev_addr = 0) (packet : Nat → Nat)
    (len : Nat) (o : SendObs) :
    send_packet s packet len o = { drv := s, calls := [], val := () } := by
  simp [send_packet, available_unbound s h]

/-- With no device bound the chunking loop of `write(buffer, len)` leaves the
driver and the call log as they are. -/
theorem write_loop_unbound (o : Nat → SendObs) (len : Nat) (s : USBH_CLCD)
    (h : s._dev_addr = 0) :
    ∀ (n k : Nat) (buffer : Nat → Nat) (calls : List HostCall) (sent_len : Nat),
      len - sent_len = n →
      (write_loop o len k buffer s calls sent_len).drv = s ∧
      (write_loop o len k buffer s calls sent_len).calls = calls := by
  intro n
  induction n using Nat.strong_induction_on with
  | _ n ih =>
    intro k buffer calls sent_len hn
    rw [write_loop]
    split
    · next hlt =>
      simp only [send_packet_unbound s h, List.append_nil]
      refine ih (len - (sent_len + if len < 32 then len else 32)) ?_ _ _ _ _ rfl
      split <;> omega
    · exact ⟨rfl, rfl⟩

/-- When the device is available `send_command` transmits one 64-byte report:
the two bytes followed by 62 zero bytes. -/
theorem send_command_calls (s : USBH_CLCD) (command data : Nat) (o : SendObs)
    (h : (available s o.avail).val = true) :
    (send_command s command data o).calls =
      [HostCall.tuh_hid_send_report (available s o.avail).drv._dev_addr
        (available s o.avail).drv._instance 0 ([command, data] ++ List.replicate 62 0)] := by
  simp only [send_command, send_packet, h]
  rfl

/-- C7: with device address 0 each of `clear`, `setCursor`, `backlight`,
`write(byte)`, `write(buffer, len)` and `update` transmits no report, requests
no input report and leaves the driver unchanged; `write(byte)` returns 0. -/
theorem unbound_commands_are_noops (s : USBH_CLCD) (h : s._dev_addr = 0) (o : SendObs)
    (oa : AvailableObs) (ou : UpdateObs) (ow : Nat → SendObs) (row col c : Nat) (on_ : Bool)
    (buffer : Nat → Nat) (len : Nat) :
    ((clear s o).drv = s ∧ (clear s o).calls.filter HostCall.isTransfer = []) ∧
    ((setCursor s row col o).drv = s ∧
      (setCursor s row col o).calls.filter HostCall.isTransfer = []) ∧
    ((backlight s on_ o).drv = s ∧
      (backlight s on_ o).calls.filter HostCall.isTransfer = []) ∧
    ((write s c oa o).drv = s ∧ (write s c oa o).calls.filter HostCall.isTransfer = [] ∧
      (write s c oa o).val = 0) ∧
    ((write_buffer s buffer len ow).drv = s ∧
      (write_buffer s buffer len ow).calls.filter HostCall.isTransfer = []) ∧
    ((update s ou).drv = s ∧ (update s ou).calls.filter HostCall.isTransfer = []) := by
  refine ⟨?_, ?_, ?_, ?_, ?_, ?_⟩
  · simp [clear, send_command, send_packet_unbound s h, HostCall.isTransfer]
  · simp [setCursor, send_command, send_packet_unbound s h]
  · simp [backlight, send_command, send_packet_unbound s h]
  · simp [write, available_unbound s h, HostCall.isTransfer]
  · have hw := write_loop_unbound ow len s h (len - 0) 0 buffer [] 0 rfl
    simp [write_buffer, hw.1, hw.2]
  · simp [update, available_unbound s h]

/-- Witness for C7: the freshly constructed driver is unbound; writing a byte
to it returns 0 and writing a 40-byte buffer transmits nothing. -/
theorem unbound_commands_are_noops_witness :
    new._dev_addr = 0 ∧
    (write new 0x41 ⟨[], true⟩ ⟨⟨[], true⟩, []⟩).val = 0 ∧
    (write_buffer new (fun _ => 0x41) 40 (fun _ => ⟨⟨[], true⟩, []⟩)).calls.filter
      HostCall.isTransfer = [] :=
  ⟨rfl,
   (unbound_commands_are_noops new rfl ⟨⟨[], true⟩, []⟩ ⟨[], true⟩ ⟨⟨[], true⟩, 0, 0⟩
      (fun _ => ⟨⟨[], true⟩, []⟩) 0 0 0x41 true (fun _ => 0x41) 40).2.2.2.1.2.2,
   (unbound_commands_are_noops new rfl ⟨⟨[], true⟩, []⟩ ⟨[], true⟩ ⟨⟨[], true⟩, 0, 0⟩
      (fun _ => ⟨⟨[], true⟩, []⟩) 0 0 0x41 true (fun _ => 0x41) 40).2.2.2.2.1.2⟩

end USBH_CLCD

/-! ## Theorems: cursor addressing in both drivers -/

/-- The DDRAM address of a wrapped cursor position fits in a byte, also with the
set-address bit. -/
theorem ddram_address_fits :
    ∀ r < 2, ∀ c < 16, 0x40 * r + c ≤ 0x4F ∧ (0x40 * r + c) % 256 = 0x40 * r + c ∧
      (0x80 ||| (0x40 * r + c)) % 256 = 0x80 ||| (0x40 * r + c) := by
  decide

/-- C3: in both drivers `setCursor(row, col)` computes the address
`0x40*(row mod 2) + (col mod 16)`, which is at most 0x4F, and sends the command
pair `(0x02, 0x80 | address)`: the HID driver hands it to `send_command` (one
zero-padded 64-byte report when the device is available), the I2C driver puts
it on the bus as one two-byte transaction; the command byte is the same. -/
theorem setCursor_address (row col : Nat) (s : USBH_CLCD) (o : USBH_CLCD.SendObs)
    (t : TWCLCD1602) (result : Int) :
    0x40 * (row % 2) + col % 16 ≤ 0x4F ∧
    USBH_CLCD.setCursor s row col o =
      USBH_CLCD.send_command s 0x02 (0x80 ||| (0x40 * (row % 2) + col % 16)) o ∧
    ((USBH_CLCD.available s o.avail).val = true →
      (USBH_CLCD.setCursor s row col o).calls =
        [USBH_CLCD.HostCall.tuh_hid_send_report (USBH_CLCD.available s o.avail).drv._dev_addr
          (USBH_CLCD.available s o.avail).drv._instance 0
          ([0x02, 0x80 ||| (0x40 * (row % 2) + col % 16)] ++ List.replicate 62 0)]) ∧
    (TWCLCD1602.setCursor t row col result).calls =
      [TWCLCD1602.WireCall.beginTransmission 0x2f, TWCLCD1602.WireCall.write 0x02,
        TWCLCD1602.WireCall.write (0x80 ||| (0x40 * (row % 2) + col % 16)),
        TWCLCD1602.WireCall.endTransmission true, TWCLCD1602.WireCall.delay 2] ∧
    TWCLCD1602.transactions (TWCLCD1602.setCursor t row col result).calls =
      [[0x02, 0x80 ||| (0x40 * (row % 2) + col % 16)]] := by
  obtain ⟨h1, h2, h3⟩ := ddram_address_fits (row % 2) (Nat.mod_lt _ (by decide)) (col % 16)
    (Nat.mod_lt _ (by decide))
  have hid : USBH_CLCD.setCursor s row col o =
      USBH_CLCD.send_command s 0x02 (0x80 ||| (0x40 * (row % 2) + col % 16)) o := by
    simp only [USBH_CLCD.setCursor, USBH_CLCD.CMD_LCD_COMMAND_TRANSFER,
      USBH_CLCD.LCD_CMD_SET_DDRAM_ADDR, h2, h3]
  have i2c : (TWCLCD1602.setCursor t row col result).calls =
      [TWCLCD1602.WireCall.beginTransmission 0x2f, TWCLCD1602.WireCall.write 0x02,
        TWCLCD1602.WireCall.write (0x80 ||| (0x40 * (row % 2) + col % 16)),
        TWCLCD1602.WireCall.endTransmission true, TWCLCD1602.WireCall.delay 2] := by
    simp only [TWCLCD1602.setCursor, h3]
    rfl
  refine ⟨h1, hid, ?_, i2c, ?_⟩
  · intro ha
    rw [hid, USBH_CLCD.send_command_calls s _ _ o ha]
  · rw [i2c]
    rfl

/-- Witness for C3: on a device bound at address 1 and ready, `setCursor(3, 18)`
transmits `(0x02, 0xC2)` padded to 64 bytes. -/
theorem setCursor_address_witness :
    (USBH_CLCD.available ⟨1, 0, false, 0, false, 0⟩ ⟨[], true⟩).val = true ∧
    (USBH_CLCD.setCursor ⟨1, 0, false, 0, false, 0⟩ 3 18 ⟨⟨[], true⟩, []⟩).calls =
      [USBH_CLCD.HostCall.tuh_hid_send_report 1 0 0 ([0x02, 0xC2] ++ List.replicate 62 0)] :=
  ⟨rfl, (setCursor_address 3 18 ⟨1, 0, false, 0, false, 0⟩ ⟨⟨[], true⟩, []⟩
    ⟨false, 0, [], 0⟩ 0).2.2.1 rfl⟩

/-! ## Theorems: the HID rotation accumulator -/

/-- Wrapping an intermediate sum does not change the wrapped total. -/
theorem toInt8_add_toInt8 (a b : Int) : toInt8 (toInt8 a + b) = toInt8 (a + b) := by
  unfold toInt8
  omega

/-- Values already in the `int8_t` range are kept by the conversion. -/
theorem toInt8_of_range (x : Int) (h1 : -128 ≤ x) (h2 : x ≤ 127) : toInt8 x = x := by
  unfold toInt8
  omega

namespace USBH_CLCD

/-- Receiving a run of accepted reports adds their signed deltas to the
accumulator, wrapping to `int8_t`. -/
theorem receive_accumulates (dev inst : Nat) (reports : List ((Nat → Nat) × Nat))
    (hlen : ∀ r ∈ reports, 2 ≤ r.2) :
    ∀ s : USBH_CLCD, s._dev_addr = dev → s._instance = inst →
      -128 ≤ s._rotation_accumulator → s._rotation_accumulator ≤ 127 →
      (reports.foldl (fun s r => report_received_cb s dev inst r.1 r.2) s)._rotation_accumulator
        = toInt8 (s._rotation_accumulator + (reports.map (fun r => toInt8 (r.1 1))).sum) := by
  induction reports with
  | nil =>
    intro s _ _ h1 h2
    simp [toInt8_of_range _ h1 h2]
  | cons r rest ih =>
    intro s hd hi _ _
    have hr : 2 ≤ r.2 := hlen r (List.mem_cons_self _ _)
    have hstep : report_received_cb s dev inst r.1 r.2 =
        { s with
          _is_pressed := (r.1 0 == 0x01)
          _rotation_accumulator := toInt8 (s._rotation_accumulator + toInt8 (r.1 1)) } := by
      simp [report_received_cb, hd, hi, hr]
    have hnext := ih (fun x hx => hlen x (List.mem_cons_of_mem _ hx))
      { s with
        _is_pressed := (r.1 0 == 0x01)
        _rotation_accumulator := toInt8 (s._rotation_accumulator + toInt8 (r.1 1)) }
      hd hi (by simp only [toInt8]; omega) (by simp only [toInt8]; omega)
    rw [List.foldl_cons, hstep, hnext]
    simp only [List.map_cons, List.sum_cons]
    rw [toInt8_add_toInt8, add_assoc]

/-- C6 as stated fails: after a drain, two accepted reports with delta 100
each leave the accumulator at -56, while the integer sum of the deltas is 200. -/
theorem readRotation_sum_counterexample :
    (readRotation
      (report_received_cb
        (report_received_cb (readRotation ⟨1, 0, false, 0, false, 0⟩).drv 1 0 (arr [0, 100]) 2)
        1 0 (arr [0, 100]) 2)).val = -56 ∧
    toInt8 (arr [0, 100] 1) + toInt8 (arr [0, 100] 1) = 200 := by
  decide

/-- C6, amended: after a `readRotation` call, for every sequence of accepted
reports (bound address and instance, length at least 2) the next
`readRotation` returns the sum of their signed deltas wrapped to `int8_t`;
this is the integer sum whenever that sum lies in `[-128, 127]`. -/
theorem readRotation_sum_wrapped (s0 : USBH_CLCD) (reports : List ((Nat → Nat) × Nat))
    (hlen : ∀ r ∈ reports, 2 ≤ r.2) :
    (readRotation
      (reports.foldl (fun s r => report_received_cb s s0._dev_addr s0._instance r.1 r.2)
        (readRotation s0).drv)).val
      = toInt8 ((reports.map (fun r => toInt8 (r.1 1))).sum) ∧
    (-128 ≤ (reports.map (fun r => toInt8 (r.1 1))).sum ∧
      (reports.map (fun r => toInt8 (r.1 1))).sum ≤ 127 →
      (readRotation
        (reports.foldl (fun s r => report_received_cb s s0._dev_addr s0._instance r.1 r.2)
          (readRotation s0).drv)).val
        = (reports.map (fun r => toInt8 (r.1 1))).sum) := by
  have key := receive_accumulates s0._dev_addr s0._instance reports hlen
    (readRotation s0).drv rfl rfl (by simp [readRotation]) (by simp [readRotation])
  have hval : (readRotation
      (reports.foldl (fun s r => report_received_cb s s0._dev_addr s0._instance r.1 r.2)
        (readRotation s0).drv)).val
      = toInt8 ((reports.map (fun r => toInt8 (r.1 1))).sum) := by
    simp only [readRotation] at key ⊢
    rw [key]
    simp
  refine ⟨hval, ?_⟩
  intro h
  rw [hval]
  exact toInt8_of_range _ h.1 h.2

/-- Witness for C6, amended: deltas +3, -1 (byte 0xFF) and +5 read back as 7. -/
theorem readRotation_sum_wrapped_witness :
    (∀ r ∈ [(arr [1, 3], 2), (arr [0, 0xFF], 2), (arr [0, 5], 8)], 2 ≤ r.2) ∧
    (readRotation
      ([(arr [1, 3], 2), (arr [0, 0xFF], 2), (arr [0, 5], 8)].foldl
        (fun s r => report_received_cb s 1 0 r.1 r.2)
        (readRotation ⟨1, 0, false, 0, true, 9⟩).drv)).val = 7 :=
  ⟨by decide,
   (readRotation_sum_wrapped ⟨1, 0, false, 0, true, 9⟩
      [(arr [1, 3], 2), (arr [0, 0xFF], 2), (arr [0, 5], 8)] (by decide)).2
      ⟨by decide, by decide⟩⟩

end USBH_CLCD

/-! ## Theorems: buffer writes of the I2C driver -/

namespace TWCLCD1602

/-- Inside a bracket, written bytes are collected up to the closing call. -/
theorem transactionsFrom_writes (bytes : List Nat) (stop : Bool) (rest : List WireCall) :
    ∀ cur : List Nat,
      transactionsFrom (some cur) (bytes.map WireCall.write ++ WireCall.endTransmission stop :: rest)
        = (cur ++ bytes) :: transactionsFrom none rest := by
  induction bytes with
  | nil =>
    intro cur
    simp [transactionsFrom]
  | cons b bs ih =>
    intro cur
    simp [transactionsFrom, ih]

/-- One complete bracket at the head of a log is one transaction. -/
theorem transactions_block (a : Nat) (bytes : List Nat) (stop : Bool) (rest : List WireCall) :
    transactionsFrom none
        ([WireCall.beginTransmission a] ++ bytes.map WireCall.write
          ++ [WireCall.endTransmission stop] ++ rest)
      = bytes :: transactionsFrom none rest := by
  simp [transactionsFrom, transactionsFrom_writes]

/-- Below capacity `wireWrite` appends the byte to the stored bytes. -/
theorem wireWrite_stores (s : TWCLCD1602) (data : Nat) (hlen : s.buffer.length = 30)
    (hd : s.datalen < 30) :
    (wireWrite s data).datalen = s.datalen + 1 ∧ (wireWrite s data).buffer.length = 30 ∧
    (wireWrite s data).buffer.take (s.datalen + 1) = s.buffer.take s.datalen ++ [data] := by
  have hne : ¬ s.datalen = 30 := by omega
  have hlt : s.datalen < s.buffer.length := by omega
  have hmod : (s.datalen + 1) % 256 = s.datalen + 1 := by omega
  simp only [wireWrite, MAX_DATA_LENGTH, beq_iff_eq, hne, if_false, hmod, List.length_set, hlen,
    true_and]
  rw [List.take_succ, List.set_take,
    List.set_eq_of_length_le (by rw [List.length_take]; omega)]
  simp [hlt]

/-- The `for` loop of `write(buffer, size)` appends `txlen` pairs while they fit. -/
theorem write_fill_stores (p : Nat → Nat) (s : TWCLCD1602) (hlen : s.buffer.length = 30) :
    ∀ txlen, s.datalen + 2 * txlen ≤ 30 →
      (write_fill p txlen s).datalen = s.datalen + 2 * txlen ∧
      (write_fill p txlen s).buffer.length = 30 ∧
      (write_fill p txlen s).buffer.take (s.datalen + 2 * txlen) =
        s.buffer.take s.datalen ++ ((List.range txlen).map p).flatMap (fun b => [0x01, b]) := by
  intro txlen
  induction txlen with
  | zero =>
    intro _
    simp [write_fill, hlen]
  | succ t ih =>
    intro h
    obtain ⟨h1, h2, h3⟩ := ih (by omega)
    have hstep : write_fill p (t + 1) s = wireWrite (wireWrite (write_fill p t s) 0x01) (p t) := by
      simp [write_fill, List.range_succ, List.foldl_append]
    obtain ⟨a1, a2, a3⟩ := wireWrite_stores (write_fill p t s) 0x01 h2 (by omega)
    obtain ⟨b1, b2, b3⟩ := wireWrite_stores (wireWrite (write_fill p t s) 0x01) (p t) a2
      (by omega)
    rw [hstep]
    refine ⟨by omega, b2, ?_⟩
    have e1 : s.datalen + 2 * (t + 1) = (wireWrite (write_fill p t s) 0x01).datalen + 1 := by
      omega
    rw [e1, b3, a1, a3, h1, h3]
    simp [List.range_succ, List.flatMap_append]

/-- Filling a fresh transaction with at most 15 characters and closing it puts
every `(0x01, character)` pair on the bus. -/
theorem write_fill_calls (p : Nat → Nat) (s : TWCLCD1602) (result : Int) (txlen : Nat)
    (h : txlen ≤ 15) :
    (endTransmission (write_fill p txlen (beginTransmission s)) result).calls =
      [WireCall.beginTransmission 0x2f]
        ++ ((((List.range txlen).map p).flatMap (fun b => [0x01, b])).map WireCall.write)
        ++ [WireCall.endTransmission true] := by
  obtain ⟨h1, h2, h3⟩ := write_fill_stores p (beginTransmission s)
    (by simp [beginTransmission, MAX_DATA_LENGTH]) txlen
    (by simp only [beginTransmission]; omega)
  have hd : (beginTransmission s).datalen = 0 := rfl
  rw [hd] at h1 h3
  simp only [Nat.zero_add, List.take_zero, List.nil_append] at h1 h3
  have hmap : (List.range (write_fill p txlen (beginTransmission s)).datalen).map
        (fun i => WireCall.write ((write_fill p txlen (beginTransmission s)).buffer.getD i 0))
      = ((write_fill p txlen (beginTransmission s)).buffer.take (2 * txlen)).map
          WireCall.write := by
    rw [h1, ← map_getD_range _ (2 * txlen) (by omega), List.map_map]
    rfl
  simp only [endTransmission, hmap, h3, I2C_CLCD_ADDRESS]

/-- With nothing left to send the loop of `write(buffer, size)` stops. -/
theorem wire_write_loop_zero (results : Nat → Int) (k : Nat) (p : Nat → Nat) (s : TWCLCD1602)
    (calls : List WireCall) :
    write_loop results k p s calls 0 = { drv := s, calls := calls, val := () } := by
  rw [write_loop]
  simp

/-- One iteration of the loop of `write(buffer, size)`: a transaction with the
next `min size 15` characters, then the loop on the rest. -/
theorem wire_write_loop_step (results : Nat → Int) (k : Nat) (p : Nat → Nat) (s : TWCLCD1602)
    (calls : List WireCall) (size : Nat) (h : size > 0) :
    write_loop results k p s calls size =
      write_loop results (k + 1) (fun i => p (i + min size 15))
        (write_fill p (min size 15) (beginTransmission s))
        (calls ++ ([WireCall.beginTransmission 0x2f]
          ++ ((((List.range (min size 15)).map p).flatMap (fun b => [0x01, b])).map
            WireCall.write)
          ++ [WireCall.endTransmission true]))
        (size - min size 15) := by
  have ht : (if size ≤ MAX_DATA_LENGTH / 2 then size else MAX_DATA_LENGTH / 2) = min size 15 := by
    simp only [MAX_DATA_LENGTH]
    split <;> omega
  rw [write_loop]
  simp only [h, dite_true, ht]
  rw [write_fill_calls p s (results k) (min size 15) (by omega)]
  rfl

/-- The call log of the loop of `write(buffer, size)`: the log so far, then one
bracket per chunk, where the chunks have at most 15 characters each, there are
`ceil(size / 15)` of them, and together they are the input. -/
theorem wire_write_loop_calls (results : Nat → Int) :
    ∀ (size k : Nat) (p : Nat → Nat) (s : TWCLCD1602) (calls : List WireCall),
      ∃ chunks : List (List Nat),
        (write_loop results k p s calls size).calls =
          calls ++ chunks.flatMap (fun c =>
            [WireCall.beginTransmission 0x2f]
              ++ ((c.flatMap (fun b => [0x01, b])).map WireCall.write)
              ++ [WireCall.endTransmission true]) ∧
        chunks.flatten = (List.range size).map p ∧
        chunks.length = (size + 14) / 15 ∧
        (∀ c ∈ chunks, c.length ≤ 15) ∧
        chunks.map List.length = (List.range ((size + 14) / 15)).map
          (fun j => min 15 (size - 15 * j)) := by
  intro size
  induction size using Nat.strong_induction_on with
  | _ size ih =>
    intro k p s calls
    by_cases h : size > 0
    · obtain ⟨chunks, h1, h2, h3, h4, h5⟩ := ih (size - min size 15) (by omega) (k + 1)
        (fun i => p (i + min size 15)) (write_fill p (min size 15) (beginTransmission s))
        (calls ++ ([WireCall.beginTransmission 0x2f]
          ++ ((((List.range (min size 15)).map p).flatMap (fun b => [0x01, b])).map
            WireCall.write)
          ++ [WireCall.endTransmission true]))
      refine ⟨(List.range (min size 15)).map p :: chunks, ?_, ?_, ?_, ?_, ?_⟩
      · rw [wire_write_loop_step results k p s calls size h, h1]
        simp [List.append_assoc]
      · have hs : size = min size 15 + (size - min size 15) := by omega
        rw [List.flatten_cons, h2]
        conv_rhs => rw [hs, List.range_add, List.map_append, List.map_map]
        congr 1
        apply List.map_congr_left
        intro i _
        simp [Nat.add_comm]
      · rw [List.length_cons, h3]
        omega
      · intro c hc
        rcases List.mem_cons.mp hc with rfl | hc
        · simp
        · exact h4 c hc
      · have hk : (size + 14) / 15 = 1 + (size - min size 15 + 14) / 15 := by omega
        rw [List.map_cons, h5, hk, List.range_add, List.map_append, List.map_map]
        have r1 : List.range 1 = [0] := rfl
        simp only [List.length_map, List.length_range, r1, List.map_cons,
          List.map_nil, List.singleton_append, Nat.mul_zero, Nat.sub_zero]
        congr 1
        · exact Nat.min_comm _ _
        · apply List.map_congr_left
          intro j _
          simp only [Function.comp]
          omega
    · have h0 : size = 0 := by omega
      subst h0
      exact ⟨[], by simp [wire_write_loop_zero], by simp, by simp, by simp, by simp⟩

/-- A log made of complete brackets has exactly their contents as transactions. -/
theorem transactions_chunks (chunks : List (List Nat)) :
    transactionsFrom none (chunks.flatMap (fun c =>
        [WireCall.beginTransmission 0x2f]
          ++ ((c.flatMap (fun b => [0x01, b])).map WireCall.write)
          ++ [WireCall.endTransmission true]))
      = chunks.map (fun c => c.flatMap (fun b => [0x01, b])) := by
  induction chunks with
  | nil => simp [transactionsFrom]
  | cons c cs ih =>
    rw [List.flatMap_cons, transactions_block, ih, List.map_cons]

/-- C4: `write(buffer, n)` returns `n` and issues `ceil(n / 15)` transactions;
each one is the `(0x01, byte)` pairs of a chunk of at most 15 characters (at
most 30 raw bytes, all of them on the bus), and the chunks in order make up the
input.  For `n = 20` the transactions carry the first 15 characters and then
the remaining 5. -/
theorem write_buffer_transactions (s : TWCLCD1602) (buffer : Nat → Nat) (n : Nat)
    (results : Nat → Int) :
    (write_buffer s buffer n results).val = n ∧
    (∃ chunks : List (List Nat),
      transactions (write_buffer s buffer n results).calls =
        chunks.map (fun c => c.flatMap (fun b => [0x01, b])) ∧
      chunks.flatten = (List.range n).map buffer ∧
      chunks.length = (n + 14) / 15 ∧
      (∀ c ∈ chunks, c.length ≤ 15) ∧
      chunks.map List.length = (List.range ((n + 14) / 15)).map
        (fun j => min 15 (n - 15 * j))) ∧
    (transactions (write_buffer s buffer n results).calls).length = (n + 14) / 15 ∧
    (∀ t ∈ transactions (write_buffer s buffer n results).calls, t.length ≤ 30) ∧
    transactions (write_buffer s buffer 20 results).calls =
      [((List.range 15).map buffer).flatMap (fun b => [0x01, b]),
       ((List.range 5).map (fun i => buffer (i + 15))).flatMap (fun b => [0x01, b])] := by
  obtain ⟨chunks, h1, h2, h3, h4, h5⟩ := wire_write_loop_calls results n 0 buffer s []
  have ht : transactions (write_buffer s buffer n results).calls =
      chunks.map (fun c => c.flatMap (fun b => [0x01, b])) := by
    simp only [write_buffer, transactions, h1, List.nil_append]
    exact transactions_chunks chunks
  have hpair : ∀ c : List Nat, (c.flatMap (fun b => [0x01, b])).length = 2 * c.length := by
    intro c
    induction c with
    | nil => rfl
    | cons a as ih =>
      rw [List.flatMap_cons, List.length_append, ih]
      simp only [List.length_cons, List.length_nil]
      omega
  refine ⟨rfl, ⟨chunks, ht, h2, h3, h4, h5⟩, ?_, ?_, ?_⟩
  · rw [ht, List.length_map, h3]
  · intro t hmem
    rw [ht] at hmem
    obtain ⟨c, hc, rfl⟩ := List.mem_map.mp hmem
    have := h4 c hc
    rw [hpair]
    omega
  · simp only [write_buffer, transactions]
    rw [wire_write_loop_step results 0 buffer s [] 20 (by decide)]
    rw [wire_write_loop_step results _ _ _ _ _ (by decide)]
    have e : 20 - min 20 15 - min (20 - min 20 15) 15 = 0 := by decide
    rw [e, wire_write_loop_zero]
    have e1 : min 20 15 = 15 := by decide
    have e2 : min (20 - 15) 15 = 5 := by decide
    simp only [e1, e2, List.nil_append, List.append_assoc]
    rw [← List.append_assoc, ← List.append_assoc, transactions_block]
    have hlast := transactions_block 0x2f
      (((List.range 5).map (fun i => buffer (i + 15))).flatMap (fun b => [0x01, b])) true []
    simp only [List.append_nil] at hlast
    rw [← List.append_assoc, hlast]
    rfl

end TWCLCD1602

/-! ## Theorems: buffer writes of the HID driver -/

namespace USBH_CLCD

/-- When `sent_len` has reached `len` the loop of `write(buffer, len)` stops. -/
theorem hid_write_loop_done (o : Nat → SendObs) (len k : Nat) (buffer : Nat → Nat) (s : USBH_CLCD)
    (calls : List HostCall) (sent_len : Nat) (h : ¬ sent_len < len) :
    write_loop o len k buffer s calls sent_len = { drv := s, calls := calls, val := sent_len } := by
  rw [write_loop]
  simp [h]

/-- One iteration of the loop of `write(buffer, len)`: the chunk length is
computed from `len`, not from what is left. -/
theorem hid_write_loop_step (o : Nat → SendObs) (len k : Nat) (buffer : Nat → Nat) (s : USBH_CLCD)
    (calls : List HostCall) (sent_len : Nat) (h : sent_len < len) :
    write_loop o len k buffer s calls sent_len =
      write_loop o len (k + 1) (fun i => buffer (i + if len < 32 then len else 32))
        (send_packet s (arr (write_pack buffer (if len < 32 then len else 32))) 64 (o k)).drv
        (calls ++
          (send_packet s (arr (write_pack buffer (if len < 32 then len else 32))) 64 (o k)).calls)
        (sent_len + if len < 32 then len else 32) := by
  rw [write_loop]
  simp only [h, dite_true]

/-- For `len >= 32` the loop adds 32 to `sent_len` until it is no longer below `len`. -/
theorem hid_write_loop_val (o : Nat → SendObs) (len : Nat) (hlen : 32 ≤ len) :
    ∀ (n k : Nat) (buffer : Nat → Nat) (s : USBH_CLCD) (calls : List HostCall) (sent_len : Nat),
      len - sent_len = n →
      (write_loop o len k buffer s calls sent_len).val
        = sent_len + 32 * ((len - sent_len + 31) / 32) := by
  intro n
  induction n using Nat.strong_induction_on with
  | _ n ih =>
    intro k buffer s calls sent_len hn
    have hc : (if len < 32 then len else 32) = 32 := by
      split <;> omega
    by_cases h : sent_len < len
    · rw [hid_write_loop_step o len k buffer s calls sent_len h, hc,
        ih (len - (sent_len + 32)) (by omega) _ _ _ _ _ rfl]
      omega
    · rw [hid_write_loop_done o len k buffer s calls sent_len h]
      show sent_len = _
      omega

/-- The value returned by `write(buffer, len)`: `len` for `len < 32`, otherwise
`len` rounded up to a multiple of 32; for `len = 40` this is 64, not 40.  The
device's state and the host's answers play no part in it. -/
theorem write_buffer_returns (s : USBH_CLCD) (buffer : Nat → Nat) (len : Nat)
    (o : Nat → SendObs) :
    (write_buffer s buffer len o).val = (if len < 32 then len else 32 * ((len + 31) / 32)) ∧
    (write_buffer s buffer 40 o).val = 64 := by
  have hge : ∀ l, 32 ≤ l → (write_buffer s buffer l o).val = 32 * ((l + 31) / 32) := by
    intro l hl
    have := hid_write_loop_val o l hl (l - 0) 0 buffer s [] 0 rfl
    simpa [write_buffer] using this
  refine ⟨?_, by rw [hge 40 (by decide)]⟩
  by_cases h : len < 32
  · simp only [h, if_true, write_buffer]
    by_cases h0 : 0 < len
    · rw [hid_write_loop_step o len 0 buffer s [] 0 h0]
      simp only [h, if_true, Nat.zero_add]
      rw [hid_write_loop_done _ _ _ _ _ _ _ (Nat.lt_irrefl len)]
    · rw [hid_write_loop_done _ _ _ _ _ _ _ h0]
      show 0 = len
      omega
  · simp only [h, if_false]
    exact hge len (by omega)

/-- Length of a run of `(0x01, byte)` pairs. -/
theorem length_pairs (c : List Nat) : (c.flatMap (fun b => [0x01, b])).length = 2 * c.length := by
  induction c with
  | nil => rfl
  | cons a as ih =>
    rw [List.flatMap_cons, List.length_append, ih]
    simp only [List.length_cons, List.length_nil]
    omega

/-- The packing loop of `write(buffer, len)` run on `copy_len <= 32` bytes
leaves `copy_len` pairs `(0x01, byte)` followed by zeros, 64 bytes in all. -/
theorem write_pack_pairs (buffer : Nat → Nat) :
    ∀ copy_len, copy_len ≤ 32 →
      write_pack buffer copy_len =
        ((List.range copy_len).map buffer).flatMap (fun b => [0x01, b])
          ++ List.replicate (64 - 2 * copy_len) 0 := by
  intro c
  induction c with
  | zero =>
    intro _
    rfl
  | succ c ih =>
    intro h
    have hstep : write_pack buffer (c + 1) =
        ((write_pack buffer c).set (c * 2 + 0) CMD_LCD_DATA_TRANSFER).set (c * 2 + 1)
          (buffer c) := by
      simp [write_pack, List.range_succ, List.foldl_append]
    have hrep : List.replicate (64 - 2 * c) 0 = 0 :: 0 :: List.replicate (64 - 2 * (c + 1)) 0 := by
      have e : 64 - 2 * c = (64 - 2 * (c + 1)) + 1 + 1 := by omega
      rw [e, List.replicate_succ, List.replicate_succ]
    have hl : (((List.range c).map buffer).flatMap (fun b => [0x01, b])).length = 2 * c := by
      rw [length_pairs, List.length_map, List.length_range]
    rw [hstep, ih (by omega), hrep,
      List.set_append_right _ _ (by rw [hl]; omega), hl,
      List.set_append_right _ _ (by rw [hl]; omega), hl]
    have e0 : c * 2 + 0 - 2 * c = 0 := by omega
    have e1 : c * 2 + 1 - 2 * c = 1 := by omega
    rw [e0, e1]
    simp [List.range_succ, List.flatMap_append, CMD_LCD_DATA_TRANSFER]

/-- On a device bound at address 1 and ready, whose send completes in the
first host step, `send_packet` of a full 64-byte buffer transmits that buffer
and leaves the driver as it was. -/
theorem send_packet_ready (buf : List Nat) (hbuf : buf.length = 64) (report : Nat → Nat) :
    send_packet ⟨1, 0, false, 0, false, 0⟩ (arr buf) 64
        ⟨⟨[], true⟩, [[HostEvent.report_sent 1 0 report 64]]⟩
      = { drv := ⟨1, 0, false, 0, false, 0⟩
          calls := [HostCall.tuh_hid_send_report 1 0 0 buf]
          val := () } := by
  have hmap : (List.range 64).map (arr buf) = buf := by
    have := map_getD_range buf 64 (by omega)
    rw [← hbuf, List.take_length] at this
    rw [← hbuf]
    exact this
  simp [send_packet, available, send_wait, task, dispatch, report_sent_cb, hmap]

/-- C1 at `len = 40`: on a device bound at address 1 and ready, whatever the
memory at `buffer` holds, `write(buffer, 40)` transmits two reports of 32 pairs
each.  The second one is built from offsets 32..63, of which 40..63 lie behind
the caller's 40 bytes; it is not the 8 pairs followed by 48 zero bytes of the
specification, since its byte 16 is 0x01 and its byte 17 is `buffer[40]`. -/
theorem write_buffer_len40_frames (buffer : Nat → Nat) :
    (write_buffer ⟨1, 0, false, 0, false, 0⟩ buffer 40
        (fun _ => ⟨⟨[], true⟩, [[HostEvent.report_sent 1 0 (fun _ => 0) 64]]⟩)).calls =
      [HostCall.tuh_hid_send_report 1 0 0
          (((List.range 32).map buffer).flatMap (fun b => [0x01, b])),
        HostCall.tuh_hid_send_report 1 0 0
          (((List.range 32).map (fun i => buffer (i + 32))).flatMap (fun b => [0x01, b]))] ∧
    (((List.range 32).map (fun i => buffer (i + 32))).flatMap (fun b => [0x01, b])).length = 64 ∧
    (((List.range 32).map (fun i => buffer (i + 32))).flatMap (fun b => [0x01, b])).getD 16 0
      = 0x01 ∧
    (((List.range 32).map (fun i => buffer (i + 32))).flatMap (fun b => [0x01, b])).getD 17 0
      = buffer 40 ∧
    (((List.range 8).map (fun i => buffer (i + 32))).flatMap (fun b => [0x01, b])
      ++ List.replicate 48 0).getD 16 0 = 0 := by
  have hp : ∀ b : Nat → Nat, write_pack b 32 = ((List.range 32).map b).flatMap
      (fun x => [0x01, x]) := by
    intro b
    rw [write_pack_pairs b 32 (by decide)]
    simp
  have hl : ∀ b : Nat → Nat, (((List.range 32).map b).flatMap (fun x => [0x01, x])).length
      = 64 := by
    intro b
    rw [length_pairs, List.length_map, List.length_range]
  have hc : (if 40 < 32 then 40 else 32) = 32 := by decide
  refine ⟨?_, hl _, ?_, ?_, ?_⟩
  · simp only [write_buffer]
    rw [hid_write_loop_step _ 40 _ _ _ _ 0 (by decide)]
    simp only [hc, hp, send_packet_ready _ (hl _)]
    rw [hid_write_loop_step _ 40 _ _ _ _ _ (by decide)]
    simp only [hc, hp, send_packet_ready _ (hl _)]
    rw [hid_write_loop_done _ 40 _ _ _ _ _ (by decide)]
    rfl
  · simp [List.range_succ, List.flatMap_append]
  · simp [List.range_succ, List.flatMap_append]
  · simp [List.range_succ, List.flatMap_append]

end USBH_CLCD

/-! ## Theorems: fixed commands and the transaction buffer of the I2C driver -/

namespace TWCLCD1602

/-- C14: each fixed I2C command sends one transaction of two bytes, mode
selector then opcode: clear `(0x02, 0x01)`, home `(0x02, 0x02)`, noDisplay
`(0x02, 0x08)`, display `(0x02, 0x0C)`, noBacklight `(0x03, 0x00)`, backlight
`(0x03, 0x01)`; `write(ch)` sends the single transaction `(0x01, ch)` and
returns 1. -/
theorem fixed_commands_transactions (s : TWCLCD1602) (result : Int) (ch : Nat) :
    transactions (clear s result).calls = [[0x02, 0x01]] ∧
    transactions (home s result).calls = [[0x02, 0x02]] ∧
    transactions (noDisplay s result).calls = [[0x02, 0x08]] ∧
    transactions (display s result).calls = [[0x02, 0x0C]] ∧
    transactions (noBacklight s result).calls = [[0x03, 0x00]] ∧
    transactions (backlight s result).calls = [[0x03, 0x01]] ∧
    transactions (write s ch result).calls = [[0x01, ch]] ∧
    (write s ch result).val = 1 ∧
    (clear s result).calls =
      [WireCall.beginTransmission 0x2f, WireCall.write 0x02, WireCall.write 0x01,
        WireCall.endTransmission true, WireCall.delay 4] ∧
    (write s ch result).calls =
      [WireCall.beginTransmission 0x2f, WireCall.write 0x01, WireCall.write ch,
        WireCall.endTransmission true] := by
  refine ⟨rfl, rfl, rfl, rfl, rfl, rfl, rfl, rfl, rfl, rfl⟩

/-- At capacity `wireWrite` drops the byte. -/
theorem wireWrite_full (s : TWCLCD1602) (data : Nat) (hd : s.datalen = 30) :
    wireWrite s data = s := by
  simp [wireWrite, MAX_DATA_LENGTH, hd]

/-- A run of `wireWrite` calls stores the bytes that fit below the capacity of 30. -/
theorem wireWrite_run (bs : List Nat) :
    ∀ s : TWCLCD1602, s.buffer.length = 30 → s.datalen ≤ 30 →
      (bs.foldl wireWrite s).datalen = min (s.datalen + bs.length) 30 ∧
      (bs.foldl wireWrite s).buffer.length = 30 ∧
      (bs.foldl wireWrite s).buffer.take (min (s.datalen + bs.length) 30) =
        (s.buffer.take s.datalen ++ bs).take 30 := by
  induction bs with
  | nil =>
    intro s hlen hd
    have e : min (s.datalen + 0) 30 = s.datalen := by omega
    simp only [List.foldl_nil, List.length_nil, e, List.append_nil, hlen, true_and]
    rw [List.take_take]
    congr 1
    omega
  | cons b rest ih =>
    intro s hlen hd
    rw [List.foldl_cons]
    by_cases hfull : s.datalen = 30
    · obtain ⟨h1, h2, h3⟩ := ih s hlen hd
      have e1 : min (s.datalen + (b :: rest).length) 30 = min (s.datalen + rest.length) 30 := by
        simp only [List.length_cons]
        omega
      have hl : (s.buffer.take s.datalen).length = 30 := by
        rw [List.length_take]
        omega
      rw [wireWrite_full s b hfull, e1]
      refine ⟨h1, h2, ?_⟩
      rw [h3, List.take_append_of_le_length (by omega),
        List.take_append_of_le_length (by omega)]
    · obtain ⟨a1, a2, a3⟩ := wireWrite_stores s b hlen (by omega)
      obtain ⟨h1, h2, h3⟩ := ih (wireWrite s b) a2 (by omega)
      have e1 : min (s.datalen + (b :: rest).length) 30 =
          min ((wireWrite s b).datalen + rest.length) 30 := by
        simp only [List.length_cons]
        omega
      rw [e1]
      refine ⟨h1, h2, ?_⟩
      rw [h3, a1, a3, List.append_assoc]
      rfl

/-- C18: after `beginTransmission`, a sequence of `wireWrite` calls with bytes
`b1..bn` leaves the stored length at `min(n, 30)`, never above 30, and
`endTransmission` puts exactly the first `min(n, 30)` bytes, in order, on the
bus as one transaction; the excess is dropped without an error. -/
theorem wireWrite_never_overflows (s : TWCLCD1602) (bs : List Nat) (result : Int) :
    (bs.foldl wireWrite (beginTransmission s)).datalen = min bs.length 30 ∧
    (bs.foldl wireWrite (beginTransmission s)).datalen ≤ 30 ∧
    (bs.foldl wireWrite (beginTransmission s)).buffer.length = 30 ∧
    (endTransmission (bs.foldl wireWrite (beginTransmission s)) result).calls =
      [WireCall.beginTransmission 0x2f]
        ++ (bs.take (min bs.length 30)).map WireCall.write
        ++ [WireCall.endTransmission true] ∧
    transactions (endTransmission (bs.foldl wireWrite (beginTransmission s)) result).calls =
      [bs.take (min bs.length 30)] ∧
    (endTransmission (bs.foldl wireWrite (beginTransmission s)) result).val = result := by
  obtain ⟨h1, h2, h3⟩ := wireWrite_run bs (beginTransmission s)
    (by simp [beginTransmission, MAX_DATA_LENGTH]) (by simp [beginTransmission])
  have hd : (beginTransmission s).datalen = 0 := rfl
  rw [hd] at h1 h3
  simp only [Nat.zero_add, List.take_zero, List.nil_append] at h1 h3
  have htake : bs.take (min bs.length 30) = bs.take 30 := by
    rcases Nat.le_total bs.length 30 with h | h
    · rw [Nat.min_eq_left h, List.take_length, List.take_of_length_le h]
    · rw [Nat.min_eq_right h]
  have hcalls : (endTransmission (bs.foldl wireWrite (beginTransmission s)) result).calls =
      [WireCall.beginTransmission 0x2f]
        ++ (bs.take (min bs.length 30)).map WireCall.write
        ++ [WireCall.endTransmission true] := by
    have hmap : (List.range (bs.foldl wireWrite (beginTransmission s)).datalen).map
          (fun i => WireCall.write ((bs.foldl wireWrite (beginTransmission s)).buffer.getD i 0))
        = ((bs.foldl wireWrite (beginTransmission s)).buffer.take (min bs.length 30)).map
            WireCall.write := by
      rw [h1, ← map_getD_range _ (min bs.length 30) (by omega), List.map_map]
      rfl
    simp only [endTransmission, hmap, h3, htake, I2C_CLCD_ADDRESS]
  refine ⟨h1, by omega, h2, hcalls, ?_, rfl⟩
  rw [hcalls]
  have hb := transactions_block 0x2f (bs.take (min bs.length 30)) true []
  simp only [List.append_nil] at hb
  exact hb

end TWCLCD1602

/-! ## Theorems: polling in the I2C driver -/

namespace TWCLCD1602

/-- C12: when the write phase of the poll returns a non-zero result, `update`
stops after the three write-phase calls: nothing is requested or read, and the
driver, in particular the cached pressed flag and rotation field, is unchanged. -/
theorem update_write_phase_failure (s : TWCLCD1602) (o : PollObs) (h : o.result ≠ 0) :
    (update s o).drv = s ∧
    (update s o).drv._pressed = s._pressed ∧
    (update s o).drv._nob = s._nob ∧
    (update s o).calls =
      [WireCall.beginTransmission 0x2f, WireCall.write 0x04, WireCall.endTransmission false] := by
  simp [update, h, I2C_CLCD_ADDRESS]

/-- Witness for C12: a poll whose write phase returns 2 leaves a driver with
pressed flag set and rotation 7 as it is. -/
theorem update_write_phase_failure_witness :
    (2 : Int) ≠ 0 ∧
    (update ⟨true, 7, [], 0⟩ ⟨2, fun _ => 0, fun _ => true, fun _ => 1⟩).drv
      = ⟨true, 7, [], 0⟩ :=
  ⟨by decide,
   (update_write_phase_failure ⟨true, 7, [], 0⟩ ⟨2, fun _ => 0, fun _ => true, fun _ => 1⟩
      (by decide)).1⟩

/-- When all 8 bytes are available the read loop of `update()` fills `buf`
with the bytes read, whatever it held before. -/
theorem update_fetch_all (o : PollObs) (ha : ∀ i < 8, o.available i = true)
    (stack : Nat → Nat) (calls : List WireCall) :
    update_fetch o 8 0 ((List.range 8).map stack) calls =
      ((List.range 8).map (fun i => o.read i % 256),
        calls ++ (List.replicate 8 [WireCall.available, WireCall.Wire_read]).flatten) := by
  have a0 := ha 0 (by decide)
  have a1 := ha 1 (by decide)
  have a2 := ha 2 (by decide)
  have a3 := ha 3 (by decide)
  have a4 := ha 4 (by decide)
  have a5 := ha 5 (by decide)
  have a6 := ha 6 (by decide)
  have a7 := ha 7 (by decide)
  simp [update_fetch, a0, a1, a2, a3, a4, a5, a6, a7, List.range_succ, List.replicate]

/-- A successful poll that reads the whole status block. -/
theorem update_success (s : TWCLCD1602) (o : PollObs) (h0 : o.result = 0)
    (ha : ∀ i < 8, o.available i = true) (hb : ∀ i < 8, o.read i < 256) :
    (update s o).drv = { s with _pressed := (o.read 0 != 0), _nob := toInt8 (o.read 1) } ∧
    (update s o).calls =
      [WireCall.beginTransmission 0x2f, WireCall.write 0x04, WireCall.endTransmission false,
        WireCall.requestFrom 0x2f 8]
      ++ (List.replicate 8 [WireCall.available, WireCall.Wire_read]).flatten
      ++ [WireCall.Wire_endTransmission] := by
  have b0 : o.read 0 % 256 = o.read 0 := Nat.mod_eq_of_lt (hb 0 (by decide))
  have b1 : o.read 1 % 256 = o.read 1 := Nat.mod_eq_of_lt (hb 1 (by decide))
  simp only [update, h0, update_fetch_all o ha]
  simp [List.range_succ, b0, b1, I2C_CLCD_ADDRESS]

/-- C13: on a successful poll that reads the 8-byte status block `b0..b7`,
`update` sets the pressed flag to `b0 != 0` and the rotation field to `b1` read
as a signed 8-bit value, whatever the fields held before; after a second such
poll the rotation field is the second sample alone, not a sum. -/
theorem update_stores_last_sample (s : TWCLCD1602) (o o2 : PollObs)
    (h0 : o.result = 0) (ha : ∀ i < 8, o.available i = true) (hb : ∀ i < 8, o.read i < 256)
    (k0 : o2.result = 0) (ka : ∀ i < 8, o2.available i = true)
    (kb : ∀ i < 8, o2.read i < 256) :
    (update s o).drv._pressed = (o.read 0 != 0) ∧
    (update s o).drv._nob = toInt8 (o.read 1) ∧
    (update s o).calls =
      [WireCall.beginTransmission 0x2f, WireCall.write 0x04, WireCall.endTransmission false,
        WireCall.requestFrom 0x2f 8]
      ++ (List.replicate 8 [WireCall.available, WireCall.Wire_read]).flatten
      ++ [WireCall.Wire_endTransmission] ∧
    (update (update s o).drv o2).drv._pressed = (o2.read 0 != 0) ∧
    (update (update s o).drv o2).drv._nob = toInt8 (o2.read 1) := by
  obtain ⟨h1, h2⟩ := update_success s o h0 ha hb
  obtain ⟨k1, _⟩ := update_success (update s o).drv o2 k0 ka kb
  refine ⟨?_, ?_, h2, ?_, ?_⟩
  · rw [h1]
  · rw [h1]
  · rw [k1]
  · rw [k1]

/-- Witness for C13: polls reading deltas 3 and then -2 (byte 0xFE) leave the
rotation field at -2, not at 1. -/
theorem update_stores_last_sample_witness :
    (update
      (update ⟨false, 0, [], 0⟩
        ⟨0, fun _ => 0xAA, fun _ => true, fun i => [1, 3, 0, 0, 0, 0, 0, 0].getD i 0⟩).drv
      ⟨0, fun _ => 0xAA, fun _ => true, fun i => [0, 0xFE, 0, 0, 0, 0, 0, 0].getD i 0⟩).drv._nob
      = -2 :=
  (update_stores_last_sample ⟨false, 0, [], 0⟩
    ⟨0, fun _ => 0xAA, fun _ => true, fun i => [1, 3, 0, 0, 0, 0, 0, 0].getD i 0⟩
    ⟨0, fun _ => 0xAA, fun _ => true, fun i => [0, 0xFE, 0, 0, 0, 0, 0, 0].getD i 0⟩
    rfl (fun _ _ => rfl) (by decide) rfl (fun _ _ => rfl) (by decide)).2.2.2.2

end TWCLCD1602

/-! ## Theorems: output reports of the HID driver -/

namespace USBH_CLCD

/-- The report `send_packet` builds for a packet of at most 64 bytes. -/
theorem send_packet_calls (s : USBH_CLCD) (packet : Nat → Nat) (len : Nat) (o : SendObs)
    (hlen : len ≤ 64) (ha : (available s o.avail).val = true) :
    (send_packet s packet len o).calls =
      [HostCall.tuh_hid_send_report (available s o.avail).drv._dev_addr
        (available s o.avail).drv._instance 0
        ((List.range 64).map (fun i => if i < len then packet i else 0))] := by
  by_cases h : len < 64
  · simp [send_packet, ha, h]
  · have e : len = 64 := by omega
    subst e
    have hmap : (List.range 64).map packet =
        (List.range 64).map (fun i => if i < 64 then packet i else 0) := by
      apply List.map_congr_left
      intro i hi
      simp [List.mem_range.mp hi]
    simp only [send_packet, ha, hmap]
    rfl

/-- C11: a packet of at most 64 bytes sent through `send_packet` to an
available device goes out as one report of exactly 64 bytes: the packet, then
zeros.  So `clear` transmits `(0x02, 0x01)`, `backlight(on)` transmits
`(0x03, on ? 1 : 0)` and `write(c)` transmits `(0x01, c)`, each followed by 62
zero bytes, and `write(c)` returns 1. -/
theorem send_packet_report_is_64_bytes (s : USBH_CLCD) (packet : Nat → Nat) (len : Nat)
    (o : SendObs) (hlen : len ≤ 64) (ha : (available s o.avail).val = true) (c : Nat)
    (on_ : Bool) :
    (send_packet s packet len o).calls =
      [HostCall.tuh_hid_send_report (available s o.avail).drv._dev_addr
        (available s o.avail).drv._instance 0
        ((List.range 64).map (fun i => if i < len then packet i else 0))] ∧
    ((List.range 64).map (fun i => if i < len then packet i else 0)).length = 64 ∧
    (∀ i, i < len →
      ((List.range 64).map (fun i => if i < len then packet i else 0)).getD i 0 = packet i) ∧
    (∀ i, len ≤ i →
      ((List.range 64).map (fun i => if i < len then packet i else 0)).getD i 0 = 0) ∧
    (clear s o).calls =
      [HostCall.tuh_hid_send_report (available s o.avail).drv._dev_addr
        (available s o.avail).drv._instance 0 ([0x02, 0x01] ++ List.replicate 62 0),
       HostCall.delay 5] ∧
    (backlight s on_ o).calls =
      [HostCall.tuh_hid_send_report (available s o.avail).drv._dev_addr
        (available s o.avail).drv._instance 0
        ([0x03, if on_ then 1 else 0] ++ List.replicate 62 0)] ∧
    (∀ (s0 : USBH_CLCD) (oa : AvailableObs),
      (available s0 oa).val = true → (available s0 oa).drv = s →
      (write s0 c oa o).calls =
        [HostCall.tuh_hid_send_report (available s o.avail).drv._dev_addr
          (available s o.avail).drv._instance 0 ([0x01, c] ++ List.replicate 62 0)] ∧
      (write s0 c oa o).val = 1) := by
  refine ⟨send_packet_calls s packet len o hlen ha, by simp, ?_, ?_, ?_, ?_, ?_⟩
  · intro i hi
    have h64 : i < 64 := by omega
    simp [List.getD, List.getElem?_range h64, hi]
  · intro i hi
    by_cases h64 : i < 64
    · have : ¬ i < len := by omega
      simp [List.getD, List.getElem?_range h64, this]
    · simp [List.getD, List.getElem?_eq_none (show ((List.range 64).map
        (fun i => if i < len then packet i else 0)).length ≤ i by simp; omega)]
  · simp only [clear, CMD_LCD_COMMAND_TRANSFER, LCD_CMD_CLEAR_DISPLAY,
      send_command_calls s _ _ o ha]
    rfl
  · simp only [backlight, CMD_BACKLIGHT_CONTROL, send_command_calls s _ _ o ha]
  · intro s0 oa h1 h2
    have hs := send_command_calls s CMD_LCD_DATA_TRANSFER c o ha
    simp only [send_command, CMD_LCD_DATA_TRANSFER] at hs
    simp only [write, h1, h2, CMD_LCD_DATA_TRANSFER, hs]
    simp

/-- Witness for C11: on a device bound at address 1 and ready, the packet
`(0x02, 0x01)` goes out as a 64-byte report and `write(0x41)` returns 1. -/
theorem send_packet_report_is_64_bytes_witness :
    (available ⟨1, 0, false, 0, false, 0⟩ ⟨[], true⟩).val = true ∧
    (send_packet ⟨1, 0, false, 0, false, 0⟩ (arr [0x02, 0x01]) 2 ⟨⟨[], true⟩, []⟩).calls =
      [HostCall.tuh_hid_send_report 1 0 0 ([0x02, 0x01] ++ List.replicate 62 0)] ∧
    (write ⟨1, 0, false, 0, false, 0⟩ 0x41 ⟨[], true⟩ ⟨⟨[], true⟩, []⟩).val = 1 :=
  ⟨rfl,
   (send_packet_report_is_64_bytes ⟨1, 0, false, 0, false, 0⟩ (arr [0x02, 0x01]) 2
      ⟨⟨[], true⟩, []⟩ (by decide) rfl 0x41 true).1,
   ((send_packet_report_is_64_bytes ⟨1, 0, false, 0, false, 0⟩ (arr [0x02, 0x01]) 2
      ⟨⟨[], true⟩, []⟩ (by decide) rfl 0x41 true).2.2.2.2.2.2
      ⟨1, 0, false, 0, false, 0⟩ ⟨[], true⟩ rfl rfl).2⟩

end USBH_CLCD

/-! ## Theorems: input reports and the unbound session of the HID driver -/

namespace USBH_CLCD

/-- C15 as stated fails: with the accumulator at 100, an accepted report with
delta 100 leaves the accumulator at -56, not at 100 + 100. -/
theorem report_received_cb_counterexample :
    (report_received_cb ⟨1, 0, false, 0, false, 100⟩ 1 0 (arr [0, 100]) 2)._rotation_accumulator
      = -56 ∧
    (100 : Int) + toInt8 (arr [0, 100] 1) = 200 := by
  decide

/-- C15, amended: a report for the bound address and instance with `len >= 2`
sets pressed to `report[0] == 0x01` and the accumulator to the old value plus
`report[1]` read as a signed 8-bit value, wrapped to `int8_t` (the exact sum
whenever that lies in `[-128, 127]`); any other report leaves pressed and the
accumulator unchanged.  In both cases address, instance, sending flag and
last-poll time are unchanged. -/
theorem report_received_cb_effect (s : USBH_CLCD) (dev_addr instance_ : Nat)
    (report : Nat → Nat) (len : Nat) :
    ((dev_addr = s._dev_addr ∧ instance_ = s._instance ∧ 2 ≤ len) →
      (report_received_cb s dev_addr instance_ report len)._is_pressed = (report 0 == 0x01) ∧
      (report_received_cb s dev_addr instance_ report len)._rotation_accumulator
        = toInt8 (s._rotation_accumulator + toInt8 (report 1)) ∧
      ((-128 ≤ s._rotation_accumulator + toInt8 (report 1) ∧
          s._rotation_accumulator + toInt8 (report 1) ≤ 127) →
        (report_received_cb s dev_addr instance_ report len)._rotation_accumulator
          = s._rotation_accumulator + toInt8 (report 1))) ∧
    (¬ (dev_addr = s._dev_addr ∧ instance_ = s._instance ∧ 2 ≤ len) →
      (report_received_cb s dev_addr instance_ report len)._is_pressed = s._is_pressed ∧
      (report_received_cb s dev_addr instance_ report len)._rotation_accumulator
        = s._rotation_accumulator) ∧
    (report_received_cb s dev_addr instance_ report len)._dev_addr = s._dev_addr ∧
    (report_received_cb s dev_addr instance_ report len)._instance = s._instance ∧
    (report_received_cb s dev_addr instance_ report len)._is_sending = s._is_sending ∧
    (report_received_cb s dev_addr instance_ report len)._last_poll_ms = s._last_poll_ms := by
  by_cases h : dev_addr = s._dev_addr ∧ instance_ = s._instance ∧ 2 ≤ len
  · have hstep : report_received_cb s dev_addr instance_ report len =
        { s with
          _is_pressed := (report 0 == 0x01)
          _rotation_accumulator := toInt8 (s._rotation_accumulator + toInt8 (report 1)) } := by
      simp [report_received_cb, h.1, h.2.1, h.2.2]
    rw [hstep]
    exact ⟨fun _ => ⟨rfl, rfl, fun hr => toInt8_of_range _ hr.1 hr.2⟩, fun hn => absurd h hn,
      rfl, rfl, rfl, rfl⟩
  · have hstep : report_received_cb s dev_addr instance_ report len = s := by
      have hc : ¬ (dev_addr == s._dev_addr && instance_ == s._instance && decide (len ≥ 2))
          = true := by
        simpa [and_assoc] using h
      simp only [report_received_cb, hc, if_false]
      rfl
    rw [hstep]
    exact ⟨fun hp => absurd hp h, fun _ => ⟨rfl, rfl⟩, rfl, rfl, rfl, rfl⟩

/-- Witness for C15, amended: on a session bound at address 1, instance 0, with
the accumulator at 4, the report `(1, 0xFD)` sets pressed and moves the
accumulator to 1; the same report for address 2 changes neither. -/
theorem report_received_cb_effect_witness :
    (report_received_cb ⟨1, 0, false, 0, false, 4⟩ 1 0 (arr [1, 0xFD]) 2)._rotation_accumulator
      = 4 + toInt8 (arr [1, 0xFD] 1) ∧
    (report_received_cb ⟨1, 0, false, 0, false, 4⟩ 2 0 (arr [1, 0xFD]) 2)._rotation_accumulator
      = 4 :=
  ⟨((report_received_cb_effect ⟨1, 0, false, 0, false, 4⟩ 1 0 (arr [1, 0xFD]) 2).1
      ⟨rfl, rfl, by decide⟩).2.2 ⟨by decide, by decide⟩,
   ((report_received_cb_effect ⟨1, 0, false, 0, false, 4⟩ 2 0 (arr [1, 0xFD]) 2).2.1
      (by decide)).2⟩

/-- Unbound means no input: the property kept by every call with a non-zero address. -/
theorem step_keeps_unbound_clean (s : USBH_CLCD) (c : ApiCall) (hc : c.dev_addr ≠ some 0)
    (hs : s._dev_addr = 0 → s._is_pressed = false ∧ s._rotation_accumulator = 0) :
    (step s c)._dev_addr = 0 →
      (step s c)._is_pressed = false ∧ (step s c)._rotation_accumulator = 0 := by
  cases c with
  | readRotation =>
    intro h
    exact ⟨(hs h).1, rfl⟩
  | isPressed =>
    intro h
    exact hs h
  | callback e =>
    cases e with
    | mount d ids =>
      have hd : d ≠ 0 := by simpa [ApiCall.dev_addr] using hc
      simp only [step, dispatch, mount_cb]
      split
      · intro h
        exact absurd h hd
      · exact hs
    | umount d =>
      simp only [step, dispatch, umount_cb]
      split
      · intro _
        exact ⟨rfl, rfl⟩
      · exact hs
    | report_received d i r l =>
      have hd : d ≠ 0 := by simpa [ApiCall.dev_addr] using hc
      simp only [step, dispatch, report_received_cb]
      split
      · next hm =>
        intro h
        simp only [Bool.and_eq_true, beq_iff_eq] at hm
        exact absurd (hm.1.1.trans h) hd
      · exact hs
    | report_sent d i r l =>
      simp only [step, dispatch, report_sent_cb]
      split
      · exact hs
      · exact hs

/-- The property holds along every run of calls with non-zero addresses. -/
theorem run_keeps_unbound_clean (calls : List ApiCall) :
    ∀ s : USBH_CLCD, (∀ c ∈ calls, c.dev_addr ≠ some 0) →
      (s._dev_addr = 0 → s._is_pressed = false ∧ s._rotation_accumulator = 0) →
      (run s calls)._dev_addr = 0 →
        (run s calls)._is_pressed = false ∧ (run s calls)._rotation_accumulator = 0 := by
  induction calls with
  | nil =>
    intro s _ hs
    exact hs
  | cons c rest ih =>
    intro s hc hs
    exact ih (step s c) (fun x hx => hc x (List.mem_cons_of_mem _ hx))
      (step_keeps_unbound_clean s c (hc c (List.mem_cons_self _ _)) hs)

/-- C17: in every driver state reached from construction by `mount_cb`,
`umount_cb`, `report_received_cb`, `report_sent_cb`, `readRotation` and
`isPressed` calls whose device addresses are all non-zero, an unbound session
(device address 0) has pressed = false and rotation accumulator = 0. -/
theorem unbound_session_has_no_input (calls : List ApiCall)
    (h : ∀ c ∈ calls, c.dev_addr ≠ some 0) :
    (run new calls)._dev_addr = 0 →
      (run new calls)._is_pressed = false ∧ (run new calls)._rotation_accumulator = 0 :=
  run_keeps_unbound_clean calls new h (fun _ => ⟨rfl, rfl⟩)

/-- Witness for C17: mount at address 5, a report with the button pressed and
delta 3, then unmount of address 5: the session is unbound again and shows no
input. -/
theorem unbound_session_has_no_input_witness :
    (run new
      [ApiCall.callback (HostEvent.mount 5 (true, 0xF055, 0x6584)),
       ApiCall.callback (HostEvent.report_received 5 0 (arr [1, 3]) 2),
       ApiCall.isPressed,
       ApiCall.callback (HostEvent.umount 5)])._dev_addr = 0 ∧
    (run new
      [ApiCall.callback (HostEvent.mount 5 (true, 0xF055, 0x6584)),
       ApiCall.callback (HostEvent.report_received 5 0 (arr [1, 3]) 2),
       ApiCall.isPressed,
       ApiCall.callback (HostEvent.umount 5)])._is_pressed = false :=
  ⟨rfl,
   (unbound_session_has_no_input
      [ApiCall.callback (HostEvent.mount 5 (true, 0xF055, 0x6584)),
       ApiCall.callback (HostEvent.report_received 5 0 (arr [1, 3]) 2),
       ApiCall.isPressed,
       ApiCall.callback (HostEvent.umount 5)]
      (by
        intro c hc
        simp only [List.mem_cons, List.mem_singleton, List.mem_nil_iff, or_false] at hc
        rcases hc with rfl | rfl | rfl | rfl <;> simp [ApiCall.dev_addr])
      rfl).1⟩

end USBH_CLCD

/-! ## Theorems: memory read by the buffer write of the HID driver -/

namespace USBH_CLCD

/-- When `sent_len` has reached `len` the loop reads nothing more. -/
theorem write_reads_done (len base iterations : Nat) (reads : List Nat) (sent_len : Nat)
    (h : ¬ sent_len < len) :
    write_reads len base iterations reads sent_len = (reads, iterations) := by
  rw [write_reads]
  simp [h]

/-- One iteration reads `copy_len` offsets starting at the advanced pointer. -/
theorem write_reads_step (len base iterations : Nat) (reads : List Nat) (sent_len : Nat)
    (h : sent_len < len) :
    write_reads len base iterations reads sent_len =
      write_reads len (base + if len < 32 then len else 32) (iterations + 1)
        (reads ++ (List.range (if len < 32 then len else 32)).map (fun i => base + i))
        (sent_len + if len < 32 then len else 32) := by
  rw [write_reads]
  simp only [h, dite_true]

/-- For `len >= 32` every remaining iteration reads 32 further offsets. -/
theorem write_reads_ge32 (len : Nat) (hlen : 32 ≤ len) :
    ∀ (n base iterations : Nat) (reads : List Nat) (sent_len : Nat), len - sent_len = n →
      write_reads len base iterations reads sent_len =
        (reads ++ (List.range (32 * ((len - sent_len + 31) / 32))).map (fun i => base + i),
          iterations + (len - sent_len + 31) / 32) := by
  intro n
  induction n using Nat.strong_induction_on with
  | _ n ih =>
    intro base iterations reads sent_len hn
    have hc : (if len < 32 then len else 32) = 32 := by
      split <;> omega
    by_cases h : sent_len < len
    · rw [write_reads_step len base iterations reads sent_len h, hc,
        ih (len - (sent_len + 32)) (by omega) _ _ _ _ rfl]
      have e1 : (len - sent_len + 31) / 32 = 1 + (len - (sent_len + 32) + 31) / 32 := by omega
      have e2 : 32 * (1 + (len - (sent_len + 32) + 31) / 32)
          = 32 + 32 * ((len - (sent_len + 32) + 31) / 32) := by omega
      rw [e1, e2, List.range_add, List.map_append, List.map_map, List.append_assoc]
      refine Prod.ext ?_ (by simp only; omega)
      simp only [List.append_cancel_left_eq]
      apply List.map_congr_left
      intro i _
      simp only [Function.comp]
      omega
    · rw [write_reads_done len base iterations reads sent_len h]
      have e : (len - sent_len + 31) / 32 = 0 := by omega
      simp [e]

/-- The two reports `write(buffer, 40)` transmits on a device bound at address
1 and ready. -/
theorem hid_write_len40_calls (buffer : Nat → Nat) :
    (write_buffer ⟨1, 0, false, 0, false, 0⟩ buffer 40
        (fun _ => ⟨⟨[], true⟩, [[HostEvent.report_sent 1 0 (fun _ => 0) 64]]⟩)).calls =
      [HostCall.tuh_hid_send_report 1 0 0
          (((List.range 32).map buffer).flatMap (fun b => [0x01, b])),
        HostCall.tuh_hid_send_report 1 0 0
          (((List.range 32).map (fun i => buffer (i + 32))).flatMap (fun b => [0x01, b]))] := by
  have hp : ∀ b : Nat → Nat, write_pack b 32 = ((List.range 32).map b).flatMap
      (fun x => [0x01, x]) := by
    intro b
    rw [write_pack_pairs b 32 (by decide)]
    simp
  have hl : ∀ b : Nat → Nat, (((List.range 32).map b).flatMap (fun x => [0x01, x])).length
      = 64 := by
    intro b
    rw [length_pairs, List.length_map, List.length_range]
  have hc : (if 40 < 32 then 40 else 32) = 32 := by decide
  simp only [write_buffer]
  rw [hid_write_loop_step _ 40 _ _ _ _ 0 (by decide)]
  simp only [hc, hp, send_packet_ready _ (hl _)]
  rw [hid_write_loop_step _ 40 _ _ _ _ _ (by decide)]
  simp only [hc, hp, send_packet_ready _ (hl _)]
  rw [hid_write_loop_done _ 40 _ _ _ _ _ (by decide)]
  rfl

/-- C16, evaluated: the loop of `write(buffer, len)` runs `ceil(len / 32)` times
and reads the offsets `0 .. r-1`, where `r` is `len` for `len < 32` and `len`
rounded up to a multiple of 32 otherwise.  For `len = 40` it runs twice and
reads the offsets 0..63, so offsets 40..63 are read although the caller's
buffer has 40 bytes: two memories that agree on the first 40 bytes make the
driver transmit different reports. -/
theorem write_buffer_reads (len : Nat) :
    write_reads len 0 0 [] 0 =
      (List.range (if len < 32 then len else 32 * ((len + 31) / 32)), (len + 31) / 32) ∧
    write_reads 40 0 0 [] 0 = (List.range 64, 2) ∧
    63 ∈ (write_reads 40 0 0 [] 0).1 ∧
    ¬ (∀ i ∈ (write_reads 40 0 0 [] 0).1, i < 40) ∧
    (write_buffer ⟨1, 0, false, 0, false, 0⟩ (fun _ => 0) 40
        (fun _ => ⟨⟨[], true⟩, [[HostEvent.report_sent 1 0 (fun _ => 0) 64]]⟩)).calls ≠
      (write_buffer ⟨1, 0, false, 0, false, 0⟩ (fun i => if i < 40 then 0 else 1) 40
        (fun _ => ⟨⟨[], true⟩, [[HostEvent.report_sent 1 0 (fun _ => 0) 64]]⟩)).calls := by
  have hge : ∀ l, 32 ≤ l →
      write_reads l 0 0 [] 0 = (List.range (32 * ((l + 31) / 32)), (l + 31) / 32) := by
    intro l hl
    have := write_reads_ge32 l hl (l - 0) 0 0 [] 0 rfl
    simpa using this
  have h40 : write_reads 40 0 0 [] 0 = (List.range 64, 2) := hge 40 (by decide)
  refine ⟨?_, h40, ?_, ?_, ?_⟩
  · by_cases h : len < 32
    · simp only [h, if_true]
      by_cases h0 : 0 < len
      · rw [write_reads_step len 0 0 [] 0 h0]
        simp only [h, if_true, Nat.zero_add, List.nil_append]
        rw [write_reads_done _ _ _ _ _ (Nat.lt_irrefl len)]
        have e : (len + 31) / 32 = 1 := by omega
        simp [e]
      · rw [write_reads_done _ _ _ _ _ h0]
        have e0 : len = 0 := by omega
        subst e0
        rfl
    · simp only [h, if_false]
      exact hge len (by omega)
  · rw [h40]
    decide
  · rw [h40]
    decide
  · rw [hid_write_len40_calls, hid_write_len40_calls]
    decide

end USBH_CLCD
